import Mathlib

/-!
Verification of the syncode adapter-driven synchronization engine.

The filesystem is modelled as an association list from absolute paths
(component lists) to entries.  Symbolic links are first-class entries; probes
that follow links (`existsSync`, `statSync`) are modelled with fuel.  The
functions below are shallow embeddings of `src/utils/fs.ts` and of the
adapter operations in `src/adapters/*` (OpenCode, Cursor, Claude, VSCode,
Clawdbot) together with the `sync`/`unsync` command driver loops.
-/

set_option autoImplicit false

namespace Syncode

/-- An absolute path, as its list of components. -/
abbrev Path := List String

/-- One filesystem object: a regular file with content, a directory,
a symbolic link carrying its target, or a special file (socket, FIFO,
device). -/
inductive FEntry where
  | file (content : String)
  | dirE
  | symlink (target : Path)
  | special
deriving DecidableEq, Repr

/-- Filesystem state: bindings from paths to entries (first binding wins). -/
abbrev Fs := List (Path × FEntry)

/-- Look up the entry bound at a path (no symlink following; `lstat`). -/
def lookupFs (fs : Fs) (p : Path) : Option FEntry :=
  match fs with
  | [] => none
  | (q, e) :: rest => if q = p then some e else lookupFs rest p

/-- `isSymlink` from `src/utils/fs.ts`: lstat-based probe, false on error. -/
def isSymlinkB (fs : Fs) (p : Path) : Bool :=
  match lookupFs fs p with
  | some (.symlink _) => true
  | _ => false

/-- `getSymlinkTarget` from `src/utils/fs.ts`: `readlinkSync`, `none` on error. -/
def getSymlinkTargetF (fs : Fs) (p : Path) : Option Path :=
  match lookupFs fs p with
  | some (.symlink t) => some t
  | _ => none

/-- Resolve a path, following chains of symbolic links at the final
component, with fuel to rule out cycles (a cyclic chain errors with
`ELOOP` in node, which the callers turn into a `none`/`false` sentinel). -/
def resolveEntry : Nat → Fs → Path → Option FEntry
  | 0, _, _ => none
  | fuel + 1, fs, p =>
    match lookupFs fs p with
    | some (.symlink t) => resolveEntry fuel fs t
    | e => e

/-- `existsSync`: follows symlinks, so a dangling link does not exist. -/
def existsSyncB (fs : Fs) (p : Path) : Bool :=
  (resolveEntry (fs.length + 1) fs p).isSome

/-- `isDirectory` from `src/utils/fs.ts`: `statSync` (follows links), false
on any error. -/
def isDirectoryB (fs : Fs) (p : Path) : Bool :=
  match resolveEntry (fs.length + 1) fs p with
  | some .dirE => true
  | _ => false

/-- `unlinkSync`: removes the binding at exactly `p` (never a subtree). -/
def unlinkFs (fs : Fs) (p : Path) : Fs :=
  fs.filter (fun e => e.1 ≠ p)

/-- `removeDir` from `src/utils/fs.ts`: no-op when the path does not exist,
otherwise deletes the whole subtree rooted at `p`. -/
def removeDirFs (fs : Fs) (p : Path) : Fs :=
  if existsSyncB fs p then fs.filter (fun e => ¬ p.isPrefixOf e.1) else fs

/-- `renameSync src dst`: the binding at `dst` (if any) is replaced, and the
subtree rooted at `src` moves to `dst`. -/
def renameFs (fs : Fs) (src dst : Path) : Fs :=
  (fs.filter (fun e => e.1 ≠ dst)).map
    (fun e => if src.isPrefixOf e.1 then (dst ++ e.1.drop src.length, e.2) else e)

/-- All nonempty prefixes of a path, shortest first. -/
def pathPrefixes (p : Path) : List Path :=
  (List.range p.length).map (fun i => p.take (i + 1))

/-- One step of recursive directory creation: create `q` if missing. -/
def addDirStep (acc : Fs) (q : Path) : Fs :=
  if (lookupFs acc q).isSome then acc else (q, .dirE) :: acc

/-- `mkdirSync { recursive: true }`: create every missing ancestor. -/
def addDirs (fs : Fs) (p : Path) : Fs :=
  (pathPrefixes p).foldl addDirStep fs

/-- `ensureDir` from `src/utils/fs.ts`. -/
def ensureDirF (fs : Fs) (p : Path) : Fs :=
  if existsSyncB fs p then fs else addDirs fs p

/-- Parent directory of a path. -/
def dirname (p : Path) : Path := p.dropLast

/-- `symlinkSync target p` (callers clear `p` first, so a fresh binding). -/
def symlinkF (fs : Fs) (target : Path) (p : Path) : Fs :=
  (p, .symlink target) :: fs

/-- Follow the symlink chain starting at `p` to the path actually denoted
(used for the write side of `copyFileSync`, which writes through links). -/
def followLinks : Nat → Fs → Path → Path
  | 0, _, p => p
  | fuel + 1, fs, p =>
    match lookupFs fs p with
    | some (.symlink t) => followLinks fuel fs t
    | _ => p

/-- Bind `p` to `e`, dropping any previous binding of `p`. -/
def setEntry (fs : Fs) (p : Path) (e : FEntry) : Fs :=
  (p, e) :: fs.filter (fun x => x.1 ≠ p)

/-- `copyFileSync src dst`: reads through links on the source side, writes
through links on the destination side; no-op here when the source does not
resolve to a regular file (node would throw, and every modelled call site
guards the source first). -/
def copyFileF (fs : Fs) (src dst : Path) : Fs :=
  match resolveEntry (fs.length + 1) fs src with
  | some (.file c) => setEntry fs (followLinks (fs.length + 1) fs dst) (.file c)
  | _ => fs

/-- `${path}.backup`: sibling path with the suffix appended to the last
component. -/
def backupPathOf (p : Path) : Path :=
  dirname p ++ [(p.getLastD "") ++ ".backup"]

/-- Render a path as an absolute slash-separated string (for messages). -/
def renderPath (p : Path) : String :=
  p.foldl (fun acc c => acc ++ "/" ++ c) ""

/-- `contractHome` from `src/utils/paths.ts`, with the home directory as an
explicit parameter (the prefix test and the drop are on the character
lists, which is what `startsWith`/`slice` compute). -/
def contractHome (home : String) (s : String) : String :=
  if home.toList.isPrefixOf s.toList then
    "~" ++ String.mk (s.toList.drop home.toList.length)
  else s

/-- `SKIP_DIRECTORIES` from `src/utils/fs.ts`. -/
def skipDirectories : List String :=
  [".git", ".svn", ".hg", "node_modules", ".cache", "__pycache__", ".DS_Store"]

/-- `readdirSync`: the names of the immediate children of a directory. -/
def childNames (fs : Fs) (p : Path) : List String :=
  (fs.filterMap (fun e =>
    if e.1.length = p.length + 1 ∧ p.isPrefixOf e.1 then e.1.getLast? else none)).dedup

/-- `copyDir` from `src/utils/fs.ts` (the variant with the skip-set and
symlink preservation), with fuel for the recursion depth.  Skip-set entries
are omitted, live symlinks are recreated with their original target, broken
symlinks and special files are skipped, directories recurse, files are
copied (overwriting). -/
def copyDirFuel : Nat → Fs → Path → Path → Fs
  | 0, fs, _, _ => fs
  | fuel + 1, fs, src, dest =>
    let fs1 := ensureDirF fs dest
    (childNames fs1 src).foldl
      (fun acc name =>
        let srcPath := src ++ [name]
        let destPath := dest ++ [name]
        if name ∈ skipDirectories then acc
        else
          match lookupFs acc srcPath with
          | some (.symlink t) =>
            if existsSyncB acc srcPath then
              symlinkF (unlinkFs (ensureDirF acc (dirname destPath)) destPath) t destPath
            else acc
          | some .dirE => copyDirFuel fuel acc srcPath destPath
          | some (.file _) => copyFileF acc srcPath destPath
          | some .special => acc
          | none => acc) fs1

/-- `backup` from `src/utils/fs.ts`: returns the backup path (if one was
made) and the new filesystem state. -/
def backupF (fs : Fs) (p : Path) : Option Path × Fs :=
  if ¬ existsSyncB fs p then (none, fs)
  else if isSymlinkB fs p then (none, fs)
  else
    let bp := backupPathOf p
    let fs1 := if existsSyncB fs bp then
        (if isDirectoryB fs bp then removeDirFs fs bp else unlinkFs fs bp)
      else fs
    (some bp, renameFs fs1 p bp)

/-- `createSymlink` from `src/utils/fs.ts`. -/
def createSymlinkF (fs : Fs) (target linkPath : Path) : Fs :=
  let fs1 := ensureDirF fs (dirname linkPath)
  let fs2 := if existsSyncB fs1 linkPath ∨ isSymlinkB fs1 linkPath then
      unlinkFs fs1 linkPath
    else fs1
  symlinkF fs2 target linkPath

/-- `createSymlinkWithBackup` from `src/utils/fs.ts`. -/
def createSymlinkWithBackupF (fs : Fs) (target linkPath : Path) :
    Option Path × Fs :=
  let (b, fs1) := backupF fs linkPath
  (b, createSymlinkF fs1 target linkPath)

/-- Result type of adapter `export` (`src/adapters/types.ts`). -/
structure ExportResult where
  success : Bool
  message : String
  backedUp : Option String := none
  linkedTo : Option String := none
deriving Repr, DecidableEq

/-- Result type of adapter `import` (`src/adapters/types.ts`). -/
structure ImportResult where
  success : Bool
  message : String
  filesImported : List String := []
deriving Repr, DecidableEq

end Syncode

namespace Syncode

/-! ### OpenCode adapter (`src/adapters/opencode.ts`) -/

def opencodeSyncPatterns : List String := ["opencode.json", "command", "agent", "skill"]

/-- `OpenCodeAdapter.isLinked`. -/
def opencodeIsLinked (fs : Fs) (systemPath repoPath : Path) : Bool :=
  isSymlinkB fs systemPath &&
    decide (getSymlinkTargetF fs systemPath = some repoPath)

/-- `OpenCodeAdapter.export`: root-level symlink export with
backup-before-overwrite and an already-linked short-circuit. -/
def opencodeExportFinish (home : String) (fs1 : Fs)
    (backedUp : Option String) (repoPath systemPath : Path) : ExportResult × Fs :=
  ({ success := true,
     message := "Linked " ++ contractHome home (renderPath systemPath) ++ " → repo",
     backedUp := backedUp,
     linkedTo := some (contractHome home (renderPath repoPath)) },
    symlinkF (ensureDirF fs1 (dirname systemPath)) repoPath systemPath)

def opencodeExport (home : String) (fs : Fs) (repoPath systemPath : Path) :
    ExportResult × Fs :=
  if ¬ (existsSyncB fs repoPath = true ∧ isDirectoryB fs repoPath = true) then
    ({ success := false, message := "OpenCode configs not found in repo" }, fs)
  else if isSymlinkB fs systemPath = true ∧
      getSymlinkTargetF fs systemPath = some repoPath then
    ({ success := true, message := "Already linked to repo - no export needed",
       linkedTo := some (contractHome home (renderPath repoPath)) }, fs)
  else if existsSyncB fs systemPath = true ∧ isSymlinkB fs systemPath = false then
    opencodeExportFinish home
      (renameFs
        (if existsSyncB fs (backupPathOf systemPath) = true then
          removeDirFs fs (backupPathOf systemPath)
        else fs) systemPath (backupPathOf systemPath))
      (some (contractHome home (renderPath (backupPathOf systemPath))))
      repoPath systemPath
  else if isSymlinkB fs systemPath = true then
    opencodeExportFinish home (unlinkFs fs systemPath) none repoPath systemPath
  else
    opencodeExportFinish home fs none repoPath systemPath

/-! ### Cursor adapter (`src/adapters/cursor.ts`) -/

def cursorSyncPatterns : List String :=
  ["settings.json", "keybindings.json", "snippets", ".cursorrules"]

/-- `CursorAdapter.isLinked`: probes the `settings.json` entry pair. -/
def cursorIsLinked (fs : Fs) (systemPath repoPath : Path) : Bool :=
  isSymlinkB fs (systemPath ++ ["settings.json"]) &&
    decide (getSymlinkTargetF fs (systemPath ++ ["settings.json"])
      = some (repoPath ++ ["settings.json"]))

/-- One iteration of the `CursorAdapter.export` pattern loop.
State: (filesystem, first backup message, exported names). -/
def cursorExportStep (home : String) (repoPath systemPath : Path)
    (acc : Fs × Option String × List String) (pat : String) :
    Fs × Option String × List String :=
  if existsSyncB acc.1 (repoPath ++ [pat]) = false then acc
  else if existsSyncB acc.1 (systemPath ++ [pat]) = true ∧
      isSymlinkB acc.1 (systemPath ++ [pat]) = false then
    (symlinkF
      (renameFs
        (if existsSyncB acc.1 (backupPathOf (systemPath ++ [pat])) = true then
          (if isDirectoryB acc.1 (backupPathOf (systemPath ++ [pat])) = true then
            removeDirFs acc.1 (backupPathOf (systemPath ++ [pat]))
          else unlinkFs acc.1 (backupPathOf (systemPath ++ [pat])))
        else acc.1)
        (systemPath ++ [pat]) (backupPathOf (systemPath ++ [pat])))
      (repoPath ++ [pat]) (systemPath ++ [pat]),
      (if acc.2.1.isSome then acc.2.1
       else some (contractHome home
         (renderPath (dirname (backupPathOf (systemPath ++ [pat])))))),
      acc.2.2 ++ [pat])
  else if isSymlinkB acc.1 (systemPath ++ [pat]) = true then
    (symlinkF (unlinkFs acc.1 (systemPath ++ [pat]))
      (repoPath ++ [pat]) (systemPath ++ [pat]),
      acc.2.1, acc.2.2 ++ [pat])
  else
    (symlinkF acc.1 (repoPath ++ [pat]) (systemPath ++ [pat]),
      acc.2.1, acc.2.2 ++ [pat])

/-- `CursorAdapter.export`: per-entry symlink export over the scoped
patterns; NOTE: no already-linked short-circuit in the source. -/
def cursorExport (home : String) (fs : Fs) (repoPath systemPath : Path) :
    ExportResult × Fs :=
  if ¬ (existsSyncB fs repoPath = true ∧ isDirectoryB fs repoPath = true) then
    ({ success := false, message := "Cursor configs not found in repo" }, fs)
  else
    let fs0 := ensureDirF fs systemPath
    let out := cursorSyncPatterns.foldl
      (cursorExportStep home repoPath systemPath) (fs0, none, [])
    ({ success := true,
       message := "Linked Cursor configs to " ++ contractHome home (renderPath systemPath),
       backedUp := out.2.1,
       linkedTo := some (contractHome home (renderPath repoPath)) }, out.1)

/-- One iteration of the `CursorAdapter.import` pattern loop.  NOTE: the
source has no existing-destination check here: files are copied
unconditionally, overwriting repo content. -/
def cursorImportStep (systemPath repoPath : Path)
    (acc : Fs × List String) (pat : String) : Fs × List String :=
  let fs := acc.1
  let srcPath := systemPath ++ [pat]
  let destPath := repoPath ++ [pat]
  if existsSyncB fs srcPath = false then acc
  else if isDirectoryB fs srcPath = true then
    (copyDirFuel (fs.length + 1) fs srcPath destPath, acc.2 ++ [pat ++ "/"])
  else
    (copyFileF (ensureDirF fs (dirname destPath)) srcPath destPath, acc.2 ++ [pat])

/-- `CursorAdapter.import`. -/
def cursorImport (fs : Fs) (systemPath repoPath : Path) : ImportResult × Fs :=
  if ¬ (existsSyncB fs systemPath = true ∧ isDirectoryB fs systemPath = true) then
    ({ success := false, message := "Cursor config not found on system" }, fs)
  else
    let fs0 := ensureDirF fs repoPath
    let out := cursorSyncPatterns.foldl (cursorImportStep systemPath repoPath) (fs0, [])
    if out.2 = [] then
      ({ success := true, message := "No Cursor configs found to import" }, out.1)
    else
      ({ success := true, message := "Imported Cursor configs to repo",
         filesImported := out.2 }, out.1)

/-! ### Claude adapter (`src/adapters/claude.ts`): copy strategy both ways -/

def claudeSyncPatterns : List String := ["settings.json", "CLAUDE.md", "commands", "skills"]

/-- `ClaudeAdapter.isLinked`: copy strategy, so "linked" is bilateral
existence; file contents are never compared. -/
def claudeIsLinked (fs : Fs) (systemPath repoPath : Path) : Bool :=
  existsSyncB fs systemPath && existsSyncB fs repoPath

/-- One iteration of the `ClaudeAdapter.import` pattern loop: skips absent
sources, symlinked sources, and — crucially — destinations that already
exist in the repo. -/
def claudeImportStep (systemPath repoPath : Path)
    (acc : Fs × List String) (pat : String) : Fs × List String :=
  let fs := acc.1
  let srcPath := systemPath ++ [pat]
  let destPath := repoPath ++ [pat]
  if existsSyncB fs srcPath = false then acc
  else if isSymlinkB fs srcPath = true then acc
  else if existsSyncB fs destPath = true then acc
  else if isDirectoryB fs srcPath = true then
    (copyDirFuel (fs.length + 1) fs srcPath destPath, acc.2 ++ [pat ++ "/"])
  else
    (copyFileF (ensureDirF fs (dirname destPath)) srcPath destPath, acc.2 ++ [pat])

/-- `ClaudeAdapter.import`. -/
def claudeImport (fs : Fs) (systemPath repoPath : Path) : ImportResult × Fs :=
  if ¬ (existsSyncB fs systemPath = true ∧ isDirectoryB fs systemPath = true) then
    ({ success := false, message := "Claude config not found on system" }, fs)
  else
    let fs0 := ensureDirF fs repoPath
    let out := claudeSyncPatterns.foldl (claudeImportStep systemPath repoPath) (fs0, [])
    if out.2 = [] then
      ({ success := true,
         message := "No Claude configs found to import (settings.json, CLAUDE.md, commands/, skills/)" },
        out.1)
    else
      ({ success := true, message := "Imported Claude configs to repo",
         filesImported := out.2 }, out.1)

/-- One iteration of the `ClaudeAdapter.export` pattern loop (copy
strategy, additive only: existing destinations are never overwritten). -/
def claudeExportStep (repoPath systemPath : Path)
    (acc : Fs × List String) (pat : String) : Fs × List String :=
  let fs := acc.1
  let srcPath := repoPath ++ [pat]
  let destPath := systemPath ++ [pat]
  if existsSyncB fs srcPath = false then acc
  else if existsSyncB fs destPath = true then acc
  else if isDirectoryB fs srcPath = true then
    (copyDirFuel (fs.length + 1) fs srcPath destPath, acc.2 ++ [pat ++ "/"])
  else
    (copyFileF (ensureDirF fs (dirname destPath)) srcPath destPath, acc.2 ++ [pat])

/-- `ClaudeAdapter.export`: copies files instead of symlinking, never
backs up, never creates a symlink at the destination. -/
def claudeExport (home : String) (fs : Fs) (repoPath systemPath : Path) :
    ExportResult × Fs :=
  if ¬ (existsSyncB fs repoPath = true ∧ isDirectoryB fs repoPath = true) then
    ({ success := false, message := "Claude configs not found in repo" }, fs)
  else
    let fs0 := ensureDirF fs systemPath
    let out := claudeSyncPatterns.foldl (claudeExportStep repoPath systemPath) (fs0, [])
    ({ success := true,
       message := "Copied Claude configs to " ++ contractHome home (renderPath systemPath),
       linkedTo := some (String.intercalate ", " out.2) }, out.1)

/-! ### Shared-skills linker (`src/adapters/shared-skills.ts`) -/

/-- `linkSharedSkillsOnSystem`. -/
def linkSharedSkillsOnSystemF (fs : Fs) (agentSkillsPath sharedSkillsPath : Path) : Fs :=
  let fs1 := ensureDirF fs sharedSkillsPath
  if isSymlinkB fs1 agentSkillsPath = true ∧
      getSymlinkTargetF fs1 agentSkillsPath = some sharedSkillsPath then fs1
  else (createSymlinkWithBackupF fs1 sharedSkillsPath agentSkillsPath).2

/-! ### VSCode adapter (`src/adapters/vscode.ts`), a shared-skills
participant whose `import` invokes the linker as an extra step -/

def vscodeSyncPatterns : List String :=
  ["settings.json", "keybindings.json", "snippets", "tasks.json", "launch.json"]

/-- One iteration of the `VSCodeAdapter.import` pattern loop (same skip
conditions as Claude's). -/
def vscodeImportStep (systemPath repoPath : Path)
    (acc : Fs × List String) (pat : String) : Fs × List String :=
  let fs := acc.1
  let srcPath := systemPath ++ [pat]
  let destPath := repoPath ++ [pat]
  if existsSyncB fs srcPath = false then acc
  else if isSymlinkB fs srcPath = true then acc
  else if existsSyncB fs destPath = true then acc
  else if isDirectoryB fs srcPath = true then
    (copyDirFuel (fs.length + 1) fs srcPath destPath, acc.2 ++ [pat ++ "/"])
  else
    (copyFileF (ensureDirF fs (dirname destPath)) srcPath destPath, acc.2 ++ [pat])

/-- `VSCodeAdapter.import`: when anything was imported it additionally
links the system-side skills directory into the shared skills directory. -/
def vscodeImport (fs : Fs) (systemPath repoPath sharedSkillsPath : Path) :
    ImportResult × Fs :=
  if ¬ (existsSyncB fs systemPath = true ∧ isDirectoryB fs systemPath = true) then
    ({ success := false, message := "VSCode config not found on system" }, fs)
  else
    let fs0 := ensureDirF fs repoPath
    let out := vscodeSyncPatterns.foldl (vscodeImportStep systemPath repoPath) (fs0, [])
    if out.2 = [] then
      ({ success := true, message := "No VSCode configs found to import" }, out.1)
    else
      ({ success := true, message := "Imported VSCode configs to repo",
         filesImported := out.2 },
        linkSharedSkillsOnSystemF out.1 (systemPath ++ ["skills"]) sharedSkillsPath)

/-! ### Clawdbot adapter (`src/adapters/clawdbot.ts`): two legacy candidate
system paths -/

/-- `ClawdbotAdapter.performExport`. -/
def clawdbotPerformExport (home : String) (fs : Fs) (repoPath systemPath : Path) :
    ExportResult × Fs :=
  if isSymlinkB fs systemPath = true ∧
      getSymlinkTargetF fs systemPath = some repoPath then
    ({ success := true, message := "Already linked to repo - no export needed",
       linkedTo := some (renderPath repoPath) }, fs)
  else
    let bp := backupPathOf systemPath
    let fs1 :=
      if existsSyncB fs systemPath = true ∧ isSymlinkB fs systemPath = false then
        renameFs (if existsSyncB fs bp = true then removeDirFs fs bp else fs) systemPath bp
      else fs
    ({ success := true,
       message := "Linked Clawdbot configs to " ++ contractHome home (renderPath systemPath),
       linkedTo := some (renderPath repoPath) },
      createSymlinkF fs1 repoPath systemPath)

/-- `ClawdbotAdapter.export`: refuses to pick between two existing legacy
roots. -/
def clawdbotExport (home : String) (fs : Fs) (repoPath p1 p2 : Path) :
    ExportResult × Fs :=
  if existsSyncB fs repoPath = false then
    ({ success := false, message := "Clawdbot configs not found in repo" }, fs)
  else
    let existing := [p1, p2].filter (fun p => existsSyncB fs p)
    if existing.length > 1 then
      ({ success := false,
         message := "Multiple config paths exist (~/.clawd and ~/.clawdbot). Please manually delete one and retry." },
        fs)
    else clawdbotPerformExport home fs repoPath (existing.headD p1)

/-! ### Shared-skills agent set (`src/agents/shared-skills.ts`) -/

def sharedSkillsAgentId : String := "agents"

def sharedSkillsAgents : List String :=
  ["amp", "claude", "codex", "cursor", "devin", "droid", "gemini-cli",
   "github-copilot", "kimi-cli", "opencode", "vscode"]

def usesSharedSkills (agentId : String) : Bool :=
  sharedSkillsAgents.contains agentId

/-- `ensureSharedSkillsAgent`: append the synthetic "agents" identifier when
some configured agent participates in shared skills and it is not already
listed. -/
def ensureSharedSkillsAgent (agentIds : List String) : List String :=
  if ¬ (agentIds.any usesSharedSkills = true) then agentIds
  else if sharedSkillsAgentId ∈ agentIds then agentIds
  else agentIds ++ [sharedSkillsAgentId]

/-- Ids of the adapters registered by `registerBuiltinAdapters`
(`src/adapters/registry.ts`).  Modelled from the spec for the six adapters
whose sources are not included (amp, gemini-cli, goose, kilo, kiro-cli,
roo): per the spec a descriptor's identifier is a unique lowercase token
naming the tool, matching the registry's import names; the other eleven
ids are read off their adapter classes. -/
def builtinAdapterIds : List String :=
  ["amp", "antigravity", "claude", "clawdbot", "codex", "cursor", "droid",
   "gemini-cli", "github-copilot", "goose", "kilo", "kiro-cli", "opencode",
   "roo", "trae", "vscode", "windsurf"]

/-! ### Batch command drivers (`src/commands/push.ts` `syncCommand`,
`src/commands/unsync.ts` `unsyncCommand`).  A registry lookup yields the
abstracted outcome of invoking that adapter; `none` models an identifier
with no registered adapter. -/

/-- Outcome of one adapter invocation inside `syncCommand`'s loop. -/
inductive AdapterRunOutcome where
  | ok (name : String)
  | failed (name msg : String)
  | threw (name emsg : String)
deriving DecidableEq, Repr

structure SyncTotals where
  succeeded : Nat
  failed : Nat
deriving DecidableEq, Repr

/-- One iteration of `syncCommand`'s loop over the configured agents. -/
def syncStep (reg : String → Option AdapterRunOutcome) (isImport : Bool)
    (st : SyncTotals × List String) (agentId : String) : SyncTotals × List String :=
  match reg agentId with
  | none =>
    ({ st.1 with failed := st.1.failed + 1 },
      st.2 ++ ["Warning: Adapter not found for " ++ agentId])
  | some (.ok name) =>
    ({ st.1 with succeeded := st.1.succeeded + 1 },
      st.2 ++ [(if isImport then "✓ Imported " else "✓ Exported ") ++ name])
  | some (.failed name msg) =>
    ({ st.1 with failed := st.1.failed + 1 },
      st.2 ++ [(if isImport then "✗ Failed to import " else "✗ Failed to export ")
        ++ name ++ ": " ++ msg])
  | some (.threw name emsg) =>
    ({ st.1 with failed := st.1.failed + 1 },
      st.2 ++ ["✗ Error syncing " ++ name ++ ": " ++ emsg])

/-- `syncCommand`: processes every configured identifier and always stops
the spinner with a summary (unless the configured list is empty, which is
cancelled before the loop). -/
def syncCommandRun (reg : String → Option AdapterRunOutcome) (isImport : Bool)
    (agents : List String) : Option (SyncTotals × List String × String) :=
  if agents = [] then none
  else
    let out := agents.foldl (syncStep reg isImport) (⟨0, 0⟩, [])
    some (out.1, out.2,
      "Sync complete: " ++ toString out.1.succeeded ++ " succeeded, "
        ++ toString out.1.failed ++ " failed")

/-- Outcome of one adapter invocation inside `unsyncCommand`'s loop. -/
inductive UnsyncOutcome where
  | copyStrategy (name : String)
  | notLinked (name : String)
  | unsynced (name : String)
  | repoMissing (name : String)
  | threw (name emsg : String)
deriving DecidableEq, Repr

structure UnsyncTotals where
  succeeded : Nat
  skipped : Nat
  failed : Nat
deriving DecidableEq, Repr

/-- One iteration of `unsyncCommand`'s loop. -/
def unsyncStep (reg : String → Option UnsyncOutcome)
    (st : UnsyncTotals × List String) (agentId : String) : UnsyncTotals × List String :=
  match reg agentId with
  | none =>
    ({ st.1 with failed := st.1.failed + 1 },
      st.2 ++ ["Warning: Adapter not found for " ++ agentId])
  | some (.copyStrategy name) =>
    ({ st.1 with skipped := st.1.skipped + 1 },
      st.2 ++ ["↷ " ++ name ++ " uses copy strategy - skipped"])
  | some (.notLinked name) =>
    ({ st.1 with skipped := st.1.skipped + 1 },
      st.2 ++ ["↷ " ++ name ++ " is not linked - skipped"])
  | some (.unsynced name) =>
    ({ st.1 with succeeded := st.1.succeeded + 1 },
      st.2 ++ ["✓ Unsynced " ++ name])
  | some (.repoMissing name) =>
    ({ st.1 with failed := st.1.failed + 1 },
      st.2 ++ ["✗ Failed to unsync " ++ name ++ ": configs not found in repo"])
  | some (.threw name emsg) =>
    ({ st.1 with failed := st.1.failed + 1 },
      st.2 ++ ["✗ Error unsyncing " ++ name ++ ": " ++ emsg])

/-- `unsyncCommand`: expands the configured list with the synthetic
shared-skills identifier, processes every identifier, and stops the spinner
with a three-count summary. -/
def unsyncCommandRun (reg : String → Option UnsyncOutcome)
    (agents : List String) : Option (UnsyncTotals × List String × String) :=
  if agents = [] then none
  else
    let processed := ensureSharedSkillsAgent agents
    let out := processed.foldl (unsyncStep reg) (⟨0, 0, 0⟩, [])
    some (out.1, out.2,
      "Unsync complete: " ++ toString out.1.succeeded ++ " succeeded, "
        ++ toString out.1.skipped ++ " skipped, "
        ++ toString out.1.failed ++ " failed")

/-- Whether a string contains a given token as a substring. -/
def containsToken (s token : String) : Bool :=
  decide (token.toList <:+: s.toList)

end Syncode

namespace Syncode

/-! ### Concrete filesystem states used by witnesses and counterexamples -/

def c7Repo : Path := ["home", "u", "repo", "configs", "clawdbot"]
def c7P1 : Path := ["home", "u", ".clawd"]
def c7P2 : Path := ["home", "u", ".clawdbot"]
def c7Fs : Fs := [(c7Repo, .dirE), (c7P1, .dirE), (c7P2, .dirE)]

def c4Path : Path := ["home", "u", ".agents", "skills"]
def c4Target : Path := ["home", "u", "repo", ".agents", "skills"]
def c4Fs : Fs := [(c4Path, .symlink c4Target), (c4Target, .dirE)]

def c4wP : Path := ["home", "u", ".opencode"]
def c4wT : Path := ["home", "u", "repo", "configs", "opencode"]
def c4wFs : Fs :=
  [(c4wP, .dirE), (c4wP ++ ["f"], .file "data"),
   (["home", "u", ".opencode.backup"], .file "stale")]

/-- Registry behaviour for the C8 counterexample: one working adapter, one
configured identifier with no registered adapter. -/
def c8Reg : String → Option AdapterRunOutcome :=
  fun id => if id = "claude" then some (.ok "Claude Code") else none

/-- C1 witness state (OpenCode): real config dir on the system side. -/
def c1Sys : Path := ["home", "u", ".config", "opencode"]
def c1Repo : Path := ["home", "u", "repo", "configs", "opencode"]
def c1Fs : Fs :=
  [(c1Repo, .dirE), (c1Sys, .dirE), (c1Sys ++ ["opencode.json"], .file "local")]

/-- C1 witness state (Cursor): real settings on both sides. -/
def c1CSys : Path := ["home", "u", "Cursor", "User"]
def c1CRepo : Path := ["home", "u", "repo", "configs", "cursor"]
def c1CFs : Fs :=
  [(c1CRepo, .dirE), (c1CRepo ++ ["settings.json"], .file "repoS"),
   (c1CSys, .dirE), (c1CSys ++ ["settings.json"], .file "sysS")]

/-- C1 counterexample state (Claude, copy strategy). -/
def c1KSys : Path := ["home", "u", ".claude"]
def c1KRepo : Path := ["home", "u", "repo", "configs", "claude"]
def c1KFs : Fs :=
  [(c1KRepo, .dirE), (c1KRepo ++ ["settings.json"], .file "R"),
   (c1KSys, .dirE), (c1KSys ++ ["settings.json"], .file "S")]

/-- C2 counterexample / witness state (Cursor re-export). -/
def c2CSys : Path := ["home", "u", "Cursor", "User"]
def c2CRepo : Path := ["home", "u", "repo", "configs", "cursor"]
def c2CFs : Fs :=
  [(c2CRepo, .dirE), (c2CRepo ++ ["settings.json"], .file "repoS"),
   (c2CSys, .dirE), (c2CSys ++ ["settings.json"], .file "sysS")]

/-- C2 witness state (OpenCode re-export). -/
def c2Sys : Path := ["home", "u", ".config", "opencode"]
def c2Repo : Path := ["home", "u", "repo", "configs", "opencode"]
def c2Fs : Fs :=
  [(c2Repo, .dirE), (c2Sys, .dirE), (c2Sys ++ ["opencode.json"], .file "local")]

/-- C9 counterexample state (Claude import with a system-side skills dir). -/
def c9KSys : Path := ["home", "u", ".claude"]
def c9KRepo : Path := ["home", "u", "repo", "configs", "claude"]
def c9Shared : Path := ["home", "u", "repo", "skills"]
def c9KFs : Fs :=
  [(c9KRepo, .dirE), (c9KSys, .dirE),
   (c9KSys ++ ["skills"], .dirE),
   (c9KSys ++ ["skills", "a.md"], .file "A")]

/-- C9 witness state (VSCode import with something to import). -/
def c9VSys : Path := ["home", "u", ".config", "Code", "User"]
def c9VRepo : Path := ["home", "u", "repo", "configs", "vscode"]
def c9VFs : Fs :=
  [(c9VRepo, .dirE), (c9VSys, .dirE),
   (c9VSys ++ ["settings.json"], .file "V")]

/-- State predicate: no binding is a symbolic link (decidable, used as the
hypothesis of the import frame theorem — the import code paths involved
never create symlinks, so the predicate is invariant). -/
def symlinkFree (fs : Fs) : Bool :=
  fs.all (fun e => match e.2 with
    | .symlink _ => false
    | _ => true)

/-- The loop body of `copyDirFuel` at recursion budget `m`, as a named
function (definitionally the lambda inside `copyDirFuel (m + 1)`). -/
def copyDirL (m : Nat) (src dest : Path) (acc : Fs) (name : String) : Fs :=
  if name ∈ skipDirectories then acc
  else
    match lookupFs acc (src ++ [name]) with
    | some (.symlink t) =>
      if existsSyncB acc (src ++ [name]) then
        symlinkF (unlinkFs (ensureDirF acc (dirname (dest ++ [name])))
          (dest ++ [name])) t (dest ++ [name])
      else acc
    | some .dirE => copyDirFuel m acc (src ++ [name]) (dest ++ [name])
    | some (.file _) => copyFileF acc (src ++ [name]) (dest ++ [name])
    | some .special => acc
    | none => acc

/-- C3 counterexample state (Cursor import over an existing repo entry). -/
def c3CSys : Path := ["home", "u", "Cursor", "User"]
def c3CRepo : Path := ["home", "u", "repo", "configs", "cursor"]
def c3CFs : Fs :=
  [(c3CRepo, .dirE), (c3CRepo ++ ["settings.json"], .file "repoS"),
   (c3CSys, .dirE), (c3CSys ++ ["settings.json"], .file "sysS")]

/-- C3 witness state (Claude import with an existing repo entry). -/
def c3KSys : Path := ["home", "u", ".claude"]
def c3KRepo : Path := ["home", "u", "repo", "configs", "claude"]
def c3KFs : Fs :=
  [(c3KRepo, .dirE), (c3KRepo ++ ["settings.json"], .file "R"),
   (c3KSys, .dirE), (c3KSys ++ ["settings.json"], .file "S")]

end Syncode

namespace Syncode

/-! ### Tree model for `copyDir` (claim C6)

`copyDir` walks one directory listing at a time, so for the skip-set and
per-entry claims it is modelled directly on directory trees.  A source
entry is a name together with an `FTree`; the destination is represented by
its list of children (the `ensureDir dest` at the top of each call is the
caller creating that list, `[]` when the destination did not exist).  The
`alive` oracle answers the `existsSync(srcPath)` probe on a symlink, i.e.
whether its target resolves in the ambient filesystem. -/

inductive FTree where
  | file (content : String)
  | dir (children : List (String × FTree))
  | link (target : String)
  | special

def lookupChild : List (String × FTree) → String → Option FTree
  | [], _ => none
  | (n, t) :: rest, name => if n = name then some t else lookupChild rest name

def upsertChild : List (String × FTree) → String → FTree → List (String × FTree)
  | [], name, t => [(name, t)]
  | (n, u) :: rest, name, t =>
    if n = name then (n, t) :: rest else (n, u) :: upsertChild rest name t

/-- One entry of the `copyDir` loop; `rec` is the recursive copy used for
subdirectories. -/
def copyEntryStep (alive : String → Bool)
    (rec : List (String × FTree) → List (String × FTree) → List (String × FTree))
    (dest : List (String × FTree))
    (name : String) (node : FTree) : List (String × FTree) :=
  if skipDirectories.contains name then dest
  else
    match node with
    | .link t => if alive t then upsertChild dest name (.link t) else dest
    | .dir cs =>
      upsertChild dest name (.dir (rec cs
        (match lookupChild dest name with
         | some (.dir d) => d
         | _ => [])))
    | .file c => upsertChild dest name (.file c)
    | .special => dest

/-- The entry loop over one source listing. -/
def copyEntryGo (alive : String → Bool)
    (rec : List (String × FTree) → List (String × FTree) → List (String × FTree)) :
    List (String × FTree) → List (String × FTree) → List (String × FTree)
  | [], dest => dest
  | (name, node) :: rest, dest =>
    copyEntryGo alive rec rest (copyEntryStep alive rec dest name node)

def copyEntryList (alive : String → Bool) :
    Nat → List (String × FTree) → List (String × FTree) → List (String × FTree)
  | 0, _, dest => dest
  | fuel + 1, l, dest => copyEntryGo alive (copyEntryList alive fuel) l dest

mutual
/-- No entry anywhere in the tree bears a skip-set name. -/
def noSkipNames : FTree → Bool
  | .dir cs => noSkipNamesList cs
  | _ => true
/-- `noSkipNames` over a directory listing. -/
def noSkipNamesList : List (String × FTree) → Bool
  | [] => true
  | (n, t) :: rest =>
    !(skipDirectories.contains n) && noSkipNames t && noSkipNamesList rest
end

/-- Source listing for the C6 witness: a subdirectory containing a nested
`.git`, a live symlink, a broken symlink, and a socket. -/
def c6Src : List (String × FTree) :=
  [("config", .dir [(".git", .dir []), ("a.txt", .file "x")]),
   ("live", .link "ok"), ("dead", .link "gone"), ("sock", .special)]

/-- Which symlink targets resolve, for the C6 witness. -/
def c6Alive : String → Bool := fun t => t = "ok"

end Syncode

namespace Syncode

/-! ### Basic lookup lemmas -/

theorem lookupFs_filter_ne {fs : Fs} {p k : Path}
    (h : k ≠ p) : lookupFs (fs.filter (fun e => e.1 ≠ p)) k = lookupFs fs k := by
  induction fs with
  | nil => rfl
  | cons hd tl ih =>
    rw [List.filter_cons]
    by_cases hq : hd.1 = p
    · rw [if_neg (by simp [hq])]
      have hdk : ¬ hd.1 = k := fun hk => h (by rw [← hk, hq])
      rw [ih]
      simp only [lookupFs, if_neg hdk]
    · rw [if_pos (by simp [hq])]
      by_cases hk : hd.1 = k
      · simp only [lookupFs, if_pos hk]
      · simp only [lookupFs, if_neg hk]; exact ih

theorem lookupFs_setEntry_self (fs : Fs) (p : Path) (e : FEntry) :
    lookupFs (setEntry fs p e) p = some e := by
  simp [setEntry, lookupFs]

theorem lookupFs_setEntry_ne (fs : Fs) (p k : Path) (e : FEntry) (h : k ≠ p) :
    lookupFs (setEntry fs p e) k = lookupFs fs k := by
  simp only [setEntry, lookupFs]
  rw [if_neg (fun hpk => h hpk.symm), lookupFs_filter_ne h]

theorem lookupFs_unlink_ne {fs : Fs} {p k : Path} (h : k ≠ p) :
    lookupFs (unlinkFs fs p) k = lookupFs fs k :=
  lookupFs_filter_ne h

theorem lookupFs_filter_keep {fs : Fs} {k : Path} {pred : Path × FEntry → Bool}
    (h : ∀ e : Path × FEntry, e.1 = k → pred e = true) :
    lookupFs (fs.filter pred) k = lookupFs fs k := by
  induction fs with
  | nil => rfl
  | cons hd tl ih =>
    rw [List.filter_cons]
    by_cases hk : hd.1 = k
    · rw [if_pos (h hd hk)]
      simp only [lookupFs, if_pos hk]
    · by_cases hp : pred hd = true
      · rw [if_pos hp]
        simp only [lookupFs, if_neg hk]; exact ih
      · rw [if_neg hp, ih]
        simp only [lookupFs, if_neg hk]

theorem lookupFs_filter_drop {fs : Fs} {k : Path} {pred : Path × FEntry → Bool}
    (h : ∀ e : Path × FEntry, e.1 = k → pred e = false) :
    lookupFs (fs.filter pred) k = none := by
  induction fs with
  | nil => rfl
  | cons hd tl ih =>
    rw [List.filter_cons]
    by_cases hk : hd.1 = k
    · rw [h hd hk]; simp only [Bool.false_eq_true, if_false]; exact ih
    · by_cases hp : pred hd = true
      · rw [if_pos hp]
        simp only [lookupFs, if_neg hk]; exact ih
      · rw [if_neg hp]; exact ih

/-- `removeDir` never touches a binding outside the deleted subtree. -/
theorem lookupFs_removeDir_out {fs : Fs} {p k : Path} (h : ¬ p <+: k) :
    lookupFs (removeDirFs fs p) k = lookupFs fs k := by
  unfold removeDirFs
  split
  · exact lookupFs_filter_keep (fun e he => by
      simp only [decide_eq_true_eq]
      intro hpk
      exact h (by rwa [← List.isPrefixOf_iff_prefix, ← he]))
  · rfl

/-- After a `removeDir` that fired, nothing under the subtree remains. -/
theorem lookupFs_removeDir_in {fs : Fs} {p k : Path}
    (hex : existsSyncB fs p = true) (h : p <+: k) :
    lookupFs (removeDirFs fs p) k = none := by
  unfold removeDirFs
  rw [if_pos hex]
  exact lookupFs_filter_drop (fun e he => by
    simp only [decide_eq_false_iff_not, Decidable.not_not]
    rw [he, List.isPrefixOf_iff_prefix]; exact h)

theorem lookupFs_map_move_out {l : Fs} {src dst k : Path}
    (hs : ¬ src <+: k) (hd : ¬ dst <+: k) :
    lookupFs (l.map (fun e =>
      if src.isPrefixOf e.1 then (dst ++ e.1.drop src.length, e.2) else e)) k
      = lookupFs l k := by
  induction l with
  | nil => rfl
  | cons hd' tl ih =>
    simp only [List.map_cons]
    by_cases hpre : src.isPrefixOf hd'.1
    · rw [if_pos hpre]
      have h1 : ¬ dst ++ List.drop src.length hd'.1 = k := by
        intro hk
        exact hd (hk ▸ List.prefix_append dst _)
      have h2 : ¬ hd'.1 = k := by
        intro hk
        exact hs (hk ▸ (List.isPrefixOf_iff_prefix.mp hpre))
      simp only [lookupFs, if_neg h1, if_neg h2]
      exact ih
    · rw [if_neg hpre]
      simp only [lookupFs]
      by_cases hk : hd'.1 = k
      · rw [if_pos hk, if_pos hk]
      · rw [if_neg hk, if_neg hk]; exact ih

/-- `rename` leaves every binding outside both subtrees untouched. -/
theorem lookupFs_rename_out {fs : Fs} {src dst k : Path}
    (hs : ¬ src <+: k) (hd : ¬ dst <+: k) :
    lookupFs (renameFs fs src dst) k = lookupFs fs k := by
  have hkd : k ≠ dst := fun h => hd (h ▸ List.prefix_refl k)
  unfold renameFs
  rw [lookupFs_map_move_out hs hd, lookupFs_filter_ne hkd]

/-- `rename` moves the source subtree: when no binding sits strictly under
the destination, the destination subtree afterwards reads exactly as the
source subtree before. -/
theorem lookupFs_rename_moved {fs : Fs} {src dst : Path} (t : Path)
    (hclean : ∀ e ∈ fs, dst <+: e.1 → e.1 = dst)
    (hout : ¬ src <+: dst) :
    lookupFs (renameFs fs src dst) (dst ++ t) = lookupFs fs (src ++ t) := by
  induction fs with
  | nil => rfl
  | cons hd' tl ih =>
    have hcleantl : ∀ e ∈ tl, dst <+: e.1 → e.1 = dst :=
      fun e he => hclean e (List.mem_cons_of_mem _ he)
    unfold renameFs at *
    rw [List.filter_cons]
    by_cases hdst : hd'.1 = dst
    · rw [if_neg (by simp [hdst])]
      rw [ih hcleantl]
      have : ¬ hd'.1 = src ++ t := by
        intro h
        exact hout (hdst ▸ h ▸ List.prefix_append src t)
      simp only [lookupFs, if_neg this]
    · rw [if_pos (by simp [hdst])]
      simp only [List.map_cons]
      by_cases hpre : src.isPrefixOf hd'.1
      · obtain ⟨u, hu⟩ := List.isPrefixOf_iff_prefix.mp hpre
        have hdrop : hd'.1.drop src.length = u := by
          rw [← hu]; exact List.drop_left src u
        rw [if_pos hpre, hdrop]
        simp only [lookupFs]
        by_cases hut : u = t
        · rw [if_pos (by rw [hut]), if_pos (by rw [← hu, hut])]
        · rw [if_neg (by
              intro h
              exact hut (List.append_cancel_left h)),
            if_neg (by
              intro h
              exact hut (List.append_cancel_left (hu.trans h)))]
          exact ih hcleantl
      · rw [if_neg hpre]
        simp only [lookupFs]
        have h1 : ¬ hd'.1 = dst ++ t := by
          intro h
          have := hclean hd' (List.mem_cons_self _ _) (h ▸ List.prefix_append dst t)
          exact hdst this
        have h2 : ¬ hd'.1 = src ++ t := by
          intro h
          exact hpre (List.isPrefixOf_iff_prefix.mpr (h ▸ List.prefix_append src t))
        rw [if_neg h1, if_neg h2]
        exact ih hcleantl

/-! ### `addDirs` / `ensureDir` lemmas -/

theorem lookupFs_foldl_addDirStep_ne {qs : List Path} {acc : Fs} {k : Path}
    (h : ∀ q ∈ qs, q ≠ k) :
    lookupFs (qs.foldl addDirStep acc) k = lookupFs acc k := by
  induction qs generalizing acc with
  | nil => rfl
  | cons q rest ih =>
    rw [List.foldl_cons, ih (fun q' hq' => h q' (List.mem_cons_of_mem _ hq'))]
    by_cases hq : (lookupFs acc q).isSome
    · rw [show addDirStep acc q = acc from if_pos hq]
    · rw [show addDirStep acc q = (q, FEntry.dirE) :: acc from if_neg hq]
      simp only [lookupFs, if_neg (h q (List.mem_cons_self _ _))]

theorem lookupFs_foldl_addDirStep_isSome {qs : List Path} {acc : Fs} {k : Path}
    (h : (lookupFs acc k).isSome) :
    lookupFs (qs.foldl addDirStep acc) k = lookupFs acc k := by
  induction qs generalizing acc with
  | nil => rfl
  | cons q rest ih =>
    rw [List.foldl_cons]
    by_cases hq : (lookupFs acc q).isSome
    · rw [show addDirStep acc q = acc from if_pos hq]
      exact ih h
    · have hk : ¬ q = k := by
        intro hqk
        rw [hqk] at hq
        exact hq h
      rw [show addDirStep acc q = (q, FEntry.dirE) :: acc from if_neg hq]
      have hlk : lookupFs ((q, FEntry.dirE) :: acc) k = lookupFs acc k := by
        simp only [lookupFs, if_neg hk]
      rw [ih (by rw [hlk]; exact h), hlk]

theorem mem_pathPrefixes_prefix {p q : Path} (h : q ∈ pathPrefixes p) : q <+: p := by
  unfold pathPrefixes at h
  obtain ⟨i, _, rfl⟩ := List.mem_map.mp h
  exact List.take_prefix _ _

/-- `ensureDir` leaves every existing binding unchanged. -/
theorem lookupFs_ensureDir_isSome {fs : Fs} {p k : Path}
    (h : (lookupFs fs k).isSome) :
    lookupFs (ensureDirF fs p) k = lookupFs fs k := by
  unfold ensureDirF
  split
  · rfl
  · exact lookupFs_foldl_addDirStep_isSome h

/-- `ensureDir p` touches only prefixes of `p`. -/
theorem lookupFs_ensureDir_out {fs : Fs} {p k : Path}
    (h : ¬ k <+: p) :
    lookupFs (ensureDirF fs p) k = lookupFs fs k := by
  unfold ensureDirF
  split
  · rfl
  · exact lookupFs_foldl_addDirStep_ne
      (fun q hq hqk => h (hqk ▸ mem_pathPrefixes_prefix hq))

/-! ### probe lemmas -/

theorem existsSyncB_of_lookup_file {fs : Fs} {p : Path} {c : String}
    (h : lookupFs fs p = some (.file c)) : existsSyncB fs p = true := by
  simp [existsSyncB, resolveEntry, h]

theorem existsSyncB_of_lookup_dir {fs : Fs} {p : Path}
    (h : lookupFs fs p = some .dirE) : existsSyncB fs p = true := by
  simp [existsSyncB, resolveEntry, h]

theorem existsSyncB_of_lookup_none {fs : Fs} {p : Path}
    (h : lookupFs fs p = none) : existsSyncB fs p = false := by
  simp [existsSyncB, resolveEntry, h]

theorem isDirectoryB_of_lookup_dir {fs : Fs} {p : Path}
    (h : lookupFs fs p = some .dirE) : isDirectoryB fs p = true := by
  simp [isDirectoryB, resolveEntry, h]

theorem isSymlinkB_of_lookup {fs : Fs} {p : Path} {t : Path}
    (h : lookupFs fs p = some (.symlink t)) : isSymlinkB fs p = true := by
  simp [isSymlinkB, h]

theorem isSymlinkB_eq_false_of_lookup_dir {fs : Fs} {p : Path}
    (h : lookupFs fs p = some .dirE) : isSymlinkB fs p = false := by
  simp [isSymlinkB, h]

theorem isSymlinkB_eq_false_of_lookup_file {fs : Fs} {p : Path} {c : String}
    (h : lookupFs fs p = some (.file c)) : isSymlinkB fs p = false := by
  simp [isSymlinkB, h]

theorem getSymlinkTargetF_of_lookup {fs : Fs} {p : Path} {t : Path}
    (h : lookupFs fs p = some (.symlink t)) : getSymlinkTargetF fs p = some t := by
  simp [getSymlinkTargetF, h]

/-- `rename` erases the source subtree: every binding under the source key
is gone afterwards (it lives under the destination now). -/
theorem lookupFs_rename_erased {fs : Fs} {src dst k : Path}
    (hk : src <+: k) (hd : ¬ dst <+: k) :
    lookupFs (renameFs fs src dst) k = none := by
  induction fs with
  | nil => rfl
  | cons hd' tl ih =>
    unfold renameFs at *
    rw [List.filter_cons]
    by_cases hdst : hd'.1 = dst
    · rw [if_neg (by simp [hdst])]
      exact ih
    · rw [if_pos (by simp [hdst])]
      simp only [List.map_cons]
      by_cases hpre : src.isPrefixOf hd'.1
      · rw [if_pos hpre]
        simp only [lookupFs]
        rw [if_neg (show ¬ dst ++ List.drop src.length hd'.1 = k from
          fun h => hd (h ▸ List.prefix_append dst _))]
        exact ih
      · rw [if_neg hpre]
        simp only [lookupFs]
        rw [if_neg (show ¬ hd'.1 = k from
          fun h => hpre (List.isPrefixOf_iff_prefix.mpr (by rw [h]; exact hk)))]
        exact ih

end Syncode

namespace Syncode

/-! ## Claim C7: ambiguous multi-root conflict surfaces as failure -/

/-- Claim C7: for the Clawdbot adapter (two legacy candidate system paths),
when both candidates exist (and the repo side is present so export gets past
its guard), export returns a failed result carrying the manual-resolution
message and leaves the filesystem completely untouched. -/
theorem clawdbot_export_both_roots_fails (home : String) (fs : Fs)
    (repoPath p1 p2 : Path)
    (hrepo : existsSyncB fs repoPath = true)
    (h1 : existsSyncB fs p1 = true) (h2 : existsSyncB fs p2 = true) :
    (clawdbotExport home fs repoPath p1 p2).1.success = false ∧
    (clawdbotExport home fs repoPath p1 p2).1.message =
      "Multiple config paths exist (~/.clawd and ~/.clawdbot). Please manually delete one and retry." ∧
    (clawdbotExport home fs repoPath p1 p2).2 = fs := by
  unfold clawdbotExport
  rw [if_neg (by rw [hrepo]; simp)]
  simp only [List.filter, h1, h2]
  exact ⟨rfl, rfl, rfl⟩

/-- Claim C7 witness. -/
theorem clawdbot_export_both_roots_fails_witness :
    (clawdbotExport "/home/u" c7Fs c7Repo c7P1 c7P2).1.success = false ∧
    (clawdbotExport "/home/u" c7Fs c7Repo c7P1 c7P2).1.message =
      "Multiple config paths exist (~/.clawd and ~/.clawdbot). Please manually delete one and retry." ∧
    (clawdbotExport "/home/u" c7Fs c7Repo c7P1 c7P2).2 = c7Fs :=
  clawdbot_export_both_roots_fails "/home/u" c7Fs c7Repo c7P1 c7P2
    (by decide) (by decide) (by decide)

/-! ## Claim C5: link detection -/

/-- Claim C5: link detection.  For the symlink-export tools the probe is a
pure symlink-target test on the designated system/repo path pair — OpenCode
probes the config root itself, Cursor probes its `settings.json` entry —
returning linked iff that system path is a symlink whose target equals
exactly the corresponding repo path; for the copy-export tool (Claude) it is
bilateral existence.  None of the three compares file contents: the
right-hand sides mention no file content. -/
theorem linkState_detection (fs : Fs) (s r : Path) :
    (opencodeIsLinked fs s r = true ↔ lookupFs fs s = some (.symlink r)) ∧
    (cursorIsLinked fs s r = true ↔
      lookupFs fs (s ++ ["settings.json"])
        = some (.symlink (r ++ ["settings.json"]))) ∧
    (claudeIsLinked fs s r = true ↔
      (existsSyncB fs s = true ∧ existsSyncB fs r = true)) := by
  refine ⟨?_, ?_, ?_⟩
  · cases h : lookupFs fs s with
    | none => simp [opencodeIsLinked, isSymlinkB, getSymlinkTargetF, h]
    | some e =>
      cases e <;> simp [opencodeIsLinked, isSymlinkB, getSymlinkTargetF, h]
  · cases h : lookupFs fs (s ++ ["settings.json"]) with
    | none => simp [cursorIsLinked, isSymlinkB, getSymlinkTargetF, h]
    | some e =>
      cases e <;> simp [cursorIsLinked, isSymlinkB, getSymlinkTargetF, h]
  · simp [claudeIsLinked]

end Syncode

namespace Syncode

/-! ## Claim C4: the backup primitive -/

theorem backupPathOf_concat (q : Path) (a : String) :
    backupPathOf (q ++ [a]) = q ++ [a ++ ".backup"] := by
  unfold backupPathOf dirname
  rw [List.dropLast_concat, List.getLastD_concat]

theorem string_ne_append_backup (a : String) : a ≠ a ++ ".backup" := by
  intro h
  have hlen := congrArg String.length h
  rw [String.length_append] at hlen
  have h7 : ".backup".length = 7 := rfl
  omega

theorem not_prefix_concat_ne {q : Path} {a b : String} (hab : a ≠ b) :
    ¬ (q ++ [a]) <+: (q ++ [b]) := by
  rw [List.prefix_append_right_inj]
  intro h
  exact hab (List.cons_prefix_cons.mp h).1

theorem prefix_incomparable {p bp k : Path}
    (h1 : ¬ p <+: bp) (h2 : ¬ bp <+: p) (hk : p <+: k) : ¬ bp <+: k :=
  fun h => (List.prefix_or_prefix_of_prefix h hk).elim h2 h1

/-- Helper: unfolding of `backup` in the real-content branch. -/
theorem backupF_real {fs : Fs} {p : Path}
    (hex : existsSyncB fs p = true) (hsym : isSymlinkB fs p = false) :
    backupF fs p = (some (backupPathOf p),
      renameFs
        (if existsSyncB fs (backupPathOf p) = true then
          (if isDirectoryB fs (backupPathOf p) = true then
            removeDirFs fs (backupPathOf p)
          else unlinkFs fs (backupPathOf p))
        else fs) p (backupPathOf p)) := by
  unfold backupF
  rw [if_neg (by rw [hex]; simp), if_neg (by rw [hsym]; simp)]

/-- Helper: `createSymlinkWithBackup` always leaves the link path bound to
the fresh symlink. -/
theorem createSymlinkWithBackupF_lookup (fs : Fs) (target p : Path) :
    lookupFs (createSymlinkWithBackupF fs target p).2 p = some (.symlink target) := by
  rcases hb : backupF fs p with ⟨b, fs1⟩
  simp [createSymlinkWithBackupF, hb, createSymlinkF, symlinkF, lookupFs]

/-- Claim C4 counterexample: `backup` applied to a path bound to a (live)
symlink returns none but does NOT unlink the symlink — the binding is still
there afterwards, contradicting "the symlink is simply unlinked". -/
theorem backup_symlink_left_in_place :
    isSymlinkB c4Fs c4Path = true ∧
    backupF c4Fs c4Path = (none, c4Fs) ∧
    lookupFs (backupF c4Fs c4Path).2 c4Path = some (.symlink c4Target) := by
  decide

/-- Claim C4 (amended): `backup(path)` returns none and leaves the state
untouched when the path is absent, and equally when the path is a symlink —
the symlink is left in place by `backup` itself (the unlink happens in the
subsequent `createSymlink` when invoked through `createSymlinkWithBackup`,
which always leaves the link path bound to the fresh symlink).  For real
content, any stale backup at `path + ".backup"` is deleted first, the path
is renamed to `path + ".backup"` (whole subtree moved, source gone — so at
most one live backup per destination is retained) and the backup path is
returned; bindings outside the two subtrees are untouched. -/
theorem backup_and_clear_behaviour (fs : Fs) (q : Path) (a : String) (target : Path)
    (hbp : ∀ e ∈ fs, (q ++ [a ++ ".backup"]) <+: e.1 → e.1 = q ++ [a ++ ".backup"]) :
    (existsSyncB fs (q ++ [a]) = false → backupF fs (q ++ [a]) = (none, fs)) ∧
    (isSymlinkB fs (q ++ [a]) = true → backupF fs (q ++ [a]) = (none, fs)) ∧
    (existsSyncB fs (q ++ [a]) = true → isSymlinkB fs (q ++ [a]) = false →
      (backupF fs (q ++ [a])).1 = some (q ++ [a ++ ".backup"]) ∧
      (∀ t, lookupFs (backupF fs (q ++ [a])).2 ((q ++ [a ++ ".backup"]) ++ t)
          = lookupFs fs ((q ++ [a]) ++ t)) ∧
      lookupFs (backupF fs (q ++ [a])).2 (q ++ [a]) = none ∧
      (∀ k, ¬ (q ++ [a]) <+: k → ¬ (q ++ [a ++ ".backup"]) <+: k →
        lookupFs (backupF fs (q ++ [a])).2 k = lookupFs fs k)) ∧
    lookupFs (createSymlinkWithBackupF fs target (q ++ [a])).2 (q ++ [a])
      = some (.symlink target) := by
  set p := q ++ [a] with hp
  set bp := q ++ [a ++ ".backup"] with hbpdef
  have hpbp : ¬ p <+: bp := not_prefix_concat_ne (string_ne_append_backup a)
  have hbpp : ¬ bp <+: p :=
    not_prefix_concat_ne (fun h => string_ne_append_backup a h.symm)
  have hbackup : backupPathOf p = bp := backupPathOf_concat q a
  refine ⟨?_, ?_, ?_, createSymlinkWithBackupF_lookup fs target p⟩
  · intro h
    unfold backupF
    rw [if_pos (by rw [h]; simp)]
  · intro h
    cases hex : existsSyncB fs p with
    | false =>
      unfold backupF
      rw [if_pos (by rw [hex]; simp)]
    | true =>
      unfold backupF
      rw [if_neg (by rw [hex]; simp), if_pos h]
  · intro hex hsym
    rw [backupF_real hex hsym, hbackup]
    set fs1 := (if existsSyncB fs bp = true then
        (if isDirectoryB fs bp = true then removeDirFs fs bp else unlinkFs fs bp)
      else fs) with hfs1
    have hclean : ∀ e ∈ fs1, bp <+: e.1 → e.1 = bp := by
      rw [hfs1]
      split
      · split
        · intro e he hpre
          unfold removeDirFs at he
          rename_i hex2 _
          rw [if_pos hex2] at he
          have := (List.mem_filter.mp he).2
          simp only [decide_eq_true_eq] at this
          exact absurd (List.isPrefixOf_iff_prefix.mpr hpre) this
        · intro e he hpre
          have h1 := (List.mem_filter.mp he).1
          have h2 := (List.mem_filter.mp he).2
          simp only [decide_eq_true_eq] at h2
          exact hbp e h1 hpre
      · exact hbp
    have hout1 : ∀ k, ¬ bp <+: k → lookupFs fs1 k = lookupFs fs k := by
      intro k hk
      rw [hfs1]
      split
      · split
        · exact lookupFs_removeDir_out hk
        · exact lookupFs_filter_ne (fun hkb => hk (hkb ▸ List.prefix_refl bp))
      · rfl
    refine ⟨rfl, ?_, ?_, ?_⟩
    · intro t
      rw [lookupFs_rename_moved t hclean hpbp]
      exact hout1 (p ++ t)
        (prefix_incomparable hpbp hbpp (List.prefix_append p t))
    · exact lookupFs_rename_erased (List.prefix_refl p) hbpp
    · intro k hk1 hk2
      rw [lookupFs_rename_out hk1 hk2]
      exact hout1 k hk2

/-- Claim C4 witness: the amended behaviour at a concrete state with real
directory content and a stale backup. -/
theorem backup_and_clear_behaviour_witness :
    lookupFs (backupF c4wFs c4wP).2 (["home", "u", ".opencode.backup"] ++ ["f"])
        = some (.file "data") ∧
    lookupFs (backupF c4wFs c4wP).2 c4wP = none ∧
    (backupF c4wFs c4wP).1 = some ["home", "u", ".opencode.backup"] := by
  have h := backup_and_clear_behaviour c4wFs ["home", "u"] ".opencode" c4wT
    (by decide)
  have h3 := h.2.2.1 (by decide) (by decide)
  exact ⟨by
      have := h3.2.1 ["f"]
      simpa using this,
    by simpa using h3.2.2.1,
    by simpa using h3.1⟩

end Syncode

namespace Syncode

/-! ## Claims C8 and C10: batch driver loops -/

/-- Every iteration of the sync loop appends exactly one message, counts
exactly one outcome, never decreases the failure count, and counts a
missing adapter as a failure with the warning message. -/
theorem syncStep_spec (reg : String → Option AdapterRunOutcome) (isImport : Bool)
    (st : SyncTotals × List String) (a : String) :
    ∃ m, (syncStep reg isImport st a).2 = st.2 ++ [m] ∧
      ((syncStep reg isImport st a).1.succeeded + (syncStep reg isImport st a).1.failed
        = st.1.succeeded + st.1.failed + 1) ∧
      st.1.failed ≤ (syncStep reg isImport st a).1.failed ∧
      (reg a = none → (syncStep reg isImport st a).1.failed = st.1.failed + 1 ∧
        (syncStep reg isImport st a).2
          = st.2 ++ ["Warning: Adapter not found for " ++ a]) := by
  unfold syncStep
  cases reg a with
  | none => exact ⟨_, rfl, by simp; omega, by simp, fun _ => ⟨rfl, rfl⟩⟩
  | some o =>
    cases o <;>
      exact ⟨_, rfl, by simp; omega, by simp, fun hc => Option.noConfusion hc⟩

/-- Same shape for the unsync loop, with its three counters. -/
theorem unsyncStep_spec (reg : String → Option UnsyncOutcome)
    (st : UnsyncTotals × List String) (a : String) :
    ∃ m, (unsyncStep reg st a).2 = st.2 ++ [m] ∧
      ((unsyncStep reg st a).1.succeeded + (unsyncStep reg st a).1.skipped
          + (unsyncStep reg st a).1.failed
        = st.1.succeeded + st.1.skipped + st.1.failed + 1) ∧
      st.1.failed ≤ (unsyncStep reg st a).1.failed ∧
      (reg a = none → (unsyncStep reg st a).1.failed = st.1.failed + 1 ∧
        (unsyncStep reg st a).2
          = st.2 ++ ["Warning: Adapter not found for " ++ a]) := by
  unfold unsyncStep
  cases reg a with
  | none => exact ⟨_, rfl, by simp; omega, by simp, fun _ => ⟨rfl, rfl⟩⟩
  | some o =>
    cases o <;>
      exact ⟨_, rfl, by simp; omega, by simp, fun hc => Option.noConfusion hc⟩

theorem syncFold_counts (reg : String → Option AdapterRunOutcome) (isImport : Bool)
    (ids : List String) (st : SyncTotals × List String) :
    ((ids.foldl (syncStep reg isImport) st).1.succeeded
      + (ids.foldl (syncStep reg isImport) st).1.failed)
      = st.1.succeeded + st.1.failed + ids.length := by
  induction ids generalizing st with
  | nil => simp
  | cons a rest ih =>
    rw [List.foldl_cons, ih]
    obtain ⟨m, _, h2, _, _⟩ := syncStep_spec reg isImport st a
    rw [h2]
    simp
    omega

theorem syncFold_msgs_mono (reg : String → Option AdapterRunOutcome)
    (isImport : Bool) (ids : List String) (st : SyncTotals × List String) :
    ∃ more, (ids.foldl (syncStep reg isImport) st).2 = st.2 ++ more := by
  induction ids generalizing st with
  | nil => exact ⟨[], by simp⟩
  | cons a rest ih =>
    rw [List.foldl_cons]
    obtain ⟨more, hmore⟩ := ih (syncStep reg isImport st a)
    obtain ⟨m, h1, _, _, _⟩ := syncStep_spec reg isImport st a
    exact ⟨[m] ++ more, by rw [hmore, h1]; simp⟩

theorem syncFold_warning (reg : String → Option AdapterRunOutcome)
    (isImport : Bool) (ids : List String) (st : SyncTotals × List String)
    (id : String) (hid : id ∈ ids) (hreg : reg id = none) :
    ("Warning: Adapter not found for " ++ id)
      ∈ (ids.foldl (syncStep reg isImport) st).2 := by
  induction ids generalizing st with
  | nil => cases hid
  | cons a rest ih =>
    rw [List.foldl_cons]
    rcases List.mem_cons.mp hid with h | h
    · subst h
      obtain ⟨more, hmore⟩ :=
        syncFold_msgs_mono reg isImport rest (syncStep reg isImport st id)
      obtain ⟨m, _, _, _, hnone⟩ := syncStep_spec reg isImport st id
      rw [hmore, (hnone hreg).2]
      exact List.mem_append_left _
        (List.mem_append_right _ (List.mem_singleton.mpr rfl))
    · exact ih _ h

theorem syncFold_fail_ge (reg : String → Option AdapterRunOutcome)
    (isImport : Bool) (ids : List String) (st : SyncTotals × List String) :
    st.1.failed + (ids.filter (fun i => (reg i).isNone)).length
      ≤ (ids.foldl (syncStep reg isImport) st).1.failed := by
  induction ids generalizing st with
  | nil => simp
  | cons a rest ih =>
    rw [List.foldl_cons, List.filter_cons]
    obtain ⟨m, _, _, hmono, hnone⟩ := syncStep_spec reg isImport st a
    have hih := ih (syncStep reg isImport st a)
    cases h : reg a with
    | none =>
      have := (hnone h).1
      simp only [h, Option.isNone_none, if_pos, List.length_cons]
      omega
    | some o =>
      simp only [h, Option.isNone_some, Bool.false_eq_true, if_false]
      omega

theorem unsyncFold_counts (reg : String → Option UnsyncOutcome)
    (ids : List String) (st : UnsyncTotals × List String) :
    ((ids.foldl (unsyncStep reg) st).1.succeeded
      + (ids.foldl (unsyncStep reg) st).1.skipped
      + (ids.foldl (unsyncStep reg) st).1.failed)
      = st.1.succeeded + st.1.skipped + st.1.failed + ids.length := by
  induction ids generalizing st with
  | nil => simp
  | cons a rest ih =>
    rw [List.foldl_cons, ih]
    obtain ⟨m, _, h2, _, _⟩ := unsyncStep_spec reg st a
    rw [h2]
    simp
    omega

theorem unsyncFold_msgs_mono (reg : String → Option UnsyncOutcome)
    (ids : List String) (st : UnsyncTotals × List String) :
    ∃ more, (ids.foldl (unsyncStep reg) st).2 = st.2 ++ more := by
  induction ids generalizing st with
  | nil => exact ⟨[], by simp⟩
  | cons a rest ih =>
    rw [List.foldl_cons]
    obtain ⟨more, hmore⟩ := ih (unsyncStep reg st a)
    obtain ⟨m, h1, _, _, _⟩ := unsyncStep_spec reg st a
    exact ⟨[m] ++ more, by rw [hmore, h1]; simp⟩

theorem unsyncFold_warning (reg : String → Option UnsyncOutcome)
    (ids : List String) (st : UnsyncTotals × List String)
    (id : String) (hid : id ∈ ids) (hreg : reg id = none) :
    ("Warning: Adapter not found for " ++ id)
      ∈ (ids.foldl (unsyncStep reg) st).2 := by
  induction ids generalizing st with
  | nil => cases hid
  | cons a rest ih =>
    rw [List.foldl_cons]
    rcases List.mem_cons.mp hid with h | h
    · subst h
      obtain ⟨more, hmore⟩ := unsyncFold_msgs_mono reg rest (unsyncStep reg st id)
      obtain ⟨m, _, _, _, hnone⟩ := unsyncStep_spec reg st id
      rw [hmore, (hnone hreg).2]
      exact List.mem_append_left _
        (List.mem_append_right _ (List.mem_singleton.mpr rfl))
    · exact ih _ h

theorem unsyncFold_fail_ge (reg : String → Option UnsyncOutcome)
    (ids : List String) (st : UnsyncTotals × List String) :
    st.1.failed + (ids.filter (fun i => (reg i).isNone)).length
      ≤ (ids.foldl (unsyncStep reg) st).1.failed := by
  induction ids generalizing st with
  | nil => simp
  | cons a rest ih =>
    rw [List.foldl_cons, List.filter_cons]
    obtain ⟨m, _, _, hmono, hnone⟩ := unsyncStep_spec reg st a
    have hih := ih (unsyncStep reg st a)
    cases h : reg a with
    | none =>
      have := (hnone h).1
      simp only [h, Option.isNone_none, if_pos, List.length_cons]
      omega
    | some o =>
      simp only [h, Option.isNone_some, Bool.false_eq_true, if_false]
      omega

end Syncode

namespace Syncode

/-- Claim C8 counterexample: the sync batch command's final summary reports
only succeeded/failed — it carries no skipped count at all, so the claim
that every batch command finishes with succeeded/skipped/failed counts is
false on `syncCommand`.  Concrete run: one working adapter, one unknown
identifier. -/
theorem sync_summary_has_no_skipped_count :
    syncCommandRun c8Reg true ["claude", "ghost"] =
      some (⟨1, 1⟩,
        ["✓ Imported Claude Code", "Warning: Adapter not found for ghost"],
        "Sync complete: 1 succeeded, 1 failed") ∧
    containsToken "Sync complete: 1 succeeded, 1 failed" "succeeded" = true ∧
    containsToken "Sync complete: 1 succeeded, 1 failed" "failed" = true ∧
    containsToken "Sync complete: 1 succeeded, 1 failed" "skipped" = false := by
  refine ⟨by decide, by decide, by decide, by decide⟩

/-- Claim C8 (amended): for every nonempty configured identifier list, both
batch commands process every identifier (the counters sum to the length of
the processed list), an identifier with no registered adapter is counted as
failed and gets an explanatory warning message while the remaining tools
are still processed, and each command finishes with a summary of its
counts — succeeded/skipped/failed for `unsync`, but only succeeded/failed
for `sync`, which has no skipped counter. -/
theorem batch_driver_behaviour (regS : String → Option AdapterRunOutcome)
    (isImport : Bool) (regU : String → Option UnsyncOutcome)
    (ids : List String) (hne : ids ≠ []) :
    (∀ out, syncCommandRun regS isImport ids = some out →
      out.1.succeeded + out.1.failed = ids.length ∧
      (∀ id ∈ ids, regS id = none →
        ("Warning: Adapter not found for " ++ id) ∈ out.2.1) ∧
      (ids.filter (fun i => (regS i).isNone)).length ≤ out.1.failed ∧
      out.2.2 = "Sync complete: " ++ toString out.1.succeeded ++ " succeeded, "
          ++ toString out.1.failed ++ " failed") ∧
    (syncCommandRun regS isImport ids).isSome = true ∧
    (∀ out, unsyncCommandRun regU ids = some out →
      out.1.succeeded + out.1.skipped + out.1.failed
        = (ensureSharedSkillsAgent ids).length ∧
      (∀ id ∈ ensureSharedSkillsAgent ids, regU id = none →
        ("Warning: Adapter not found for " ++ id) ∈ out.2.1) ∧
      ((ensureSharedSkillsAgent ids).filter (fun i => (regU i).isNone)).length
        ≤ out.1.failed ∧
      out.2.2 = "Unsync complete: " ++ toString out.1.succeeded ++ " succeeded, "
          ++ toString out.1.skipped ++ " skipped, "
          ++ toString out.1.failed ++ " failed") ∧
    (unsyncCommandRun regU ids).isSome = true := by
  refine ⟨?_, ?_, ?_, ?_⟩
  · intro out hout
    unfold syncCommandRun at hout
    rw [if_neg hne] at hout
    obtain rfl := (Option.some_inj.mp hout).symm
    refine ⟨?_, ?_, ?_, rfl⟩
    · have := syncFold_counts regS isImport ids (⟨0, 0⟩, [])
      simpa using this
    · intro id hid hreg
      exact syncFold_warning regS isImport ids (⟨0, 0⟩, []) id hid hreg
    · have := syncFold_fail_ge regS isImport ids (⟨0, 0⟩, [])
      simpa using this
  · unfold syncCommandRun
    rw [if_neg hne]
    rfl
  · intro out hout
    unfold unsyncCommandRun at hout
    rw [if_neg hne] at hout
    obtain rfl := (Option.some_inj.mp hout).symm
    refine ⟨?_, ?_, ?_, rfl⟩
    · have := unsyncFold_counts regU (ensureSharedSkillsAgent ids) (⟨0, 0, 0⟩, [])
      simpa using this
    · intro id hid hreg
      exact unsyncFold_warning regU (ensureSharedSkillsAgent ids) (⟨0, 0, 0⟩, []) id hid hreg
    · have := unsyncFold_fail_ge regU (ensureSharedSkillsAgent ids) (⟨0, 0, 0⟩, [])
      simpa using this
  · unfold unsyncCommandRun
    rw [if_neg hne]
    rfl

/-- Claim C8 witness: the amended behaviour at a concrete run. -/
theorem batch_driver_behaviour_witness :
    (∀ out, syncCommandRun c8Reg true ["claude", "ghost"] = some out →
      out.1.succeeded + out.1.failed = (["claude", "ghost"] : List String).length ∧
      (∀ id ∈ (["claude", "ghost"] : List String), c8Reg id = none →
        ("Warning: Adapter not found for " ++ id) ∈ out.2.1) ∧
      ((["claude", "ghost"] : List String).filter
        (fun i => (c8Reg i).isNone)).length ≤ out.1.failed ∧
      out.2.2 = "Sync complete: " ++ toString out.1.succeeded ++ " succeeded, "
          ++ toString out.1.failed ++ " failed") ∧
    (syncCommandRun c8Reg true ["claude", "ghost"]).isSome = true :=
  ⟨(batch_driver_behaviour c8Reg true (fun _ => none) ["claude", "ghost"]
      (by decide)).1,
    (batch_driver_behaviour c8Reg true (fun _ => none) ["claude", "ghost"]
      (by decide)).2.1⟩

/-- Claim C10: whenever the configured agent list contains a shared-skills
participant, `unsyncCommand` processes the list with the synthetic "agents"
identifier appended exactly once at the end (when not already present the
processed list is exactly the original followed by "agents", preserving
order); and since `registerBuiltinAdapters` registers no adapter with id
"agents", any registry consistent with the builtin id set makes the batch's
failed count at least one. -/
theorem unsync_includes_agents_and_fails (regU : String → Option UnsyncOutcome)
    (ids : List String)
    (hpart : ids.any usesSharedSkills = true)
    (hreg : ∀ id, (regU id).isSome = true → id ∈ builtinAdapterIds) :
    sharedSkillsAgentId ∉ builtinAdapterIds ∧
    (sharedSkillsAgentId ∉ ids →
      ensureSharedSkillsAgent ids = ids ++ [sharedSkillsAgentId] ∧
      (ensureSharedSkillsAgent ids).count sharedSkillsAgentId = 1) ∧
    sharedSkillsAgentId ∈ ensureSharedSkillsAgent ids ∧
    (∀ out, unsyncCommandRun regU ids = some out → 1 ≤ out.1.failed) := by
  have hagents : regU sharedSkillsAgentId = none := by
    cases h : regU sharedSkillsAgentId with
    | none => rfl
    | some o =>
      have := hreg sharedSkillsAgentId (by rw [h]; rfl)
      exact absurd this (by decide)
  have hens : sharedSkillsAgentId ∈ ensureSharedSkillsAgent ids := by
    unfold ensureSharedSkillsAgent
    rw [if_neg (by rw [hpart]; simp)]
    split
    · assumption
    · exact List.mem_append_right _ (List.mem_singleton.mpr rfl)
  refine ⟨by decide, ?_, hens, ?_⟩
  · intro hnot
    have heq : ensureSharedSkillsAgent ids = ids ++ [sharedSkillsAgentId] := by
      unfold ensureSharedSkillsAgent
      rw [if_neg (by rw [hpart]; simp), if_neg hnot]
    refine ⟨heq, ?_⟩
    rw [heq, List.count_append, List.count_eq_zero.mpr hnot]
    simp
  · intro out hout
    have hne : ids ≠ [] := by
      intro h
      rw [h] at hpart
      simp [List.any] at hpart
    unfold unsyncCommandRun at hout
    rw [if_neg hne] at hout
    obtain rfl := (Option.some_inj.mp hout).symm
    have hge := unsyncFold_fail_ge regU (ensureSharedSkillsAgent ids) (⟨0, 0, 0⟩, [])
    have hmem : sharedSkillsAgentId ∈
        (ensureSharedSkillsAgent ids).filter (fun i => (regU i).isNone) := by
      rw [List.mem_filter]
      exact ⟨hens, by rw [hagents]; rfl⟩
    have hlen : 1 ≤ ((ensureSharedSkillsAgent ids).filter
        (fun i => (regU i).isNone)).length :=
      List.length_pos.mpr (List.ne_nil_of_mem hmem)
    show 1 ≤ (List.foldl (unsyncStep regU) (⟨0, 0, 0⟩, [])
      (ensureSharedSkillsAgent ids)).1.failed
    omega

/-- Claim C10 witness. -/
theorem unsync_includes_agents_and_fails_witness :
    sharedSkillsAgentId ∉ builtinAdapterIds ∧
    (sharedSkillsAgentId ∉ (["claude"] : List String) →
      ensureSharedSkillsAgent ["claude"] = ["claude"] ++ [sharedSkillsAgentId] ∧
      (ensureSharedSkillsAgent ["claude"]).count sharedSkillsAgentId = 1) ∧
    sharedSkillsAgentId ∈ ensureSharedSkillsAgent ["claude"] ∧
    (∀ out, unsyncCommandRun (fun _ => none) ["claude"] = some out →
      1 ≤ out.1.failed) :=
  unsync_includes_agents_and_fails (fun _ => none) ["claude"] (by decide)
    (fun id h => by simp at h)

end Syncode

namespace Syncode

/-! ## Claim C6: `copyDir` skip-set enforcement and symlink handling -/

theorem copyEntryList_zero (alive : String → Bool)
    (src dest : List (String × FTree)) :
    copyEntryList alive 0 src dest = dest := rfl

theorem copyEntryList_nil (alive : String → Bool) (fuel : Nat)
    (dest : List (String × FTree)) :
    copyEntryList alive (fuel + 1) [] dest = dest := rfl

theorem copyEntryList_cons (alive : String → Bool) (fuel : Nat) (name : String)
    (node : FTree) (rest dest : List (String × FTree)) :
    copyEntryList alive (fuel + 1) ((name, node) :: rest) dest
      = copyEntryList alive (fuel + 1) rest
          (copyEntryStep alive (copyEntryList alive fuel) dest name node) := rfl

theorem copyEntryStep_skip {name : String} (alive : String → Bool)
    (rec : List (String × FTree) → List (String × FTree) → List (String × FTree))
    (dest : List (String × FTree)) (node : FTree)
    (hskip : skipDirectories.contains name = true) :
    copyEntryStep alive rec dest name node = dest := by
  unfold copyEntryStep
  rw [if_pos hskip]

theorem copyEntryStep_link {name : String} (alive : String → Bool)
    (rec : List (String × FTree) → List (String × FTree) → List (String × FTree))
    (dest : List (String × FTree)) (t : String)
    (hskip : skipDirectories.contains name = false) :
    copyEntryStep alive rec dest name (.link t)
      = if alive t = true then upsertChild dest name (.link t) else dest := by
  unfold copyEntryStep
  rw [if_neg (by rw [hskip]; simp)]

theorem copyEntryStep_file {name : String} (alive : String → Bool)
    (rec : List (String × FTree) → List (String × FTree) → List (String × FTree))
    (dest : List (String × FTree)) (c : String)
    (hskip : skipDirectories.contains name = false) :
    copyEntryStep alive rec dest name (.file c)
      = upsertChild dest name (.file c) := by
  unfold copyEntryStep
  rw [if_neg (by rw [hskip]; simp)]

theorem copyEntryStep_special {name : String} (alive : String → Bool)
    (rec : List (String × FTree) → List (String × FTree) → List (String × FTree))
    (dest : List (String × FTree))
    (hskip : skipDirectories.contains name = false) :
    copyEntryStep alive rec dest name .special = dest := by
  unfold copyEntryStep
  rw [if_neg (by rw [hskip]; simp)]

theorem copyEntryStep_dir {name : String} (alive : String → Bool)
    (rec : List (String × FTree) → List (String × FTree) → List (String × FTree))
    (dest : List (String × FTree)) (cs : List (String × FTree))
    (hskip : skipDirectories.contains name = false) :
    copyEntryStep alive rec dest name (.dir cs)
      = upsertChild dest name (.dir (rec cs
          (match lookupChild dest name with
           | some (.dir d) => d
           | _ => []))) := by
  unfold copyEntryStep
  rw [if_neg (by rw [hskip]; simp)]

theorem copyEntryList_append (alive : String → Bool) (fuel : Nat)
    (l₁ l₂ dest : List (String × FTree)) :
    copyEntryList alive (fuel + 1) (l₁ ++ l₂) dest
      = copyEntryList alive (fuel + 1) l₂ (copyEntryList alive (fuel + 1) l₁ dest) := by
  induction l₁ generalizing dest with
  | nil => rw [List.nil_append, copyEntryList_nil]
  | cons e rest ih =>
    obtain ⟨name, node⟩ := e
    rw [List.cons_append, copyEntryList_cons, copyEntryList_cons, ih]

theorem lookupChild_upsert_self (cs : List (String × FTree)) (name : String)
    (t : FTree) : lookupChild (upsertChild cs name t) name = some t := by
  induction cs with
  | nil =>
    unfold upsertChild lookupChild
    rw [if_pos rfl]
  | cons e rest ih =>
    obtain ⟨n, u⟩ := e
    unfold upsertChild
    by_cases h : n = name
    · rw [if_pos h]
      unfold lookupChild
      rw [if_pos h]
    · rw [if_neg h]
      unfold lookupChild
      rw [if_neg h]
      exact ih

theorem lookupChild_upsert_ne (cs : List (String × FTree)) (name : String)
    (t : FTree) (k : String) (h : k ≠ name) :
    lookupChild (upsertChild cs name t) k = lookupChild cs k := by
  induction cs with
  | nil =>
    unfold upsertChild lookupChild
    rw [if_neg (fun hk : name = k => h hk.symm)]
    rfl
  | cons e rest ih =>
    obtain ⟨n, u⟩ := e
    unfold upsertChild
    by_cases hn : n = name
    · rw [if_pos hn]
      have hnk : ¬ n = k := fun hk => h (hk ▸ hn ▸ rfl)
      unfold lookupChild
      rw [if_neg hnk, if_neg hnk]
    · rw [if_neg hn]
      unfold lookupChild
      by_cases hk : n = k
      · rw [if_pos hk, if_pos hk]
      · rw [if_neg hk, if_neg hk]
        exact ih

theorem noSkip_upsert {cs : List (String × FTree)} {name : String} {t : FTree}
    (h1 : noSkipNamesList cs = true) (h2 : skipDirectories.contains name = false)
    (h3 : noSkipNames t = true) :
    noSkipNamesList (upsertChild cs name t) = true := by
  induction cs with
  | nil =>
    unfold upsertChild noSkipNamesList
    rw [h2, h3]
    unfold noSkipNamesList
    rfl
  | cons e rest ih =>
    obtain ⟨n, u⟩ := e
    unfold noSkipNamesList at h1
    simp only [Bool.and_eq_true] at h1
    unfold upsertChild
    by_cases hn : n = name
    · rw [if_pos hn]
      unfold noSkipNamesList
      rw [hn, h2, h3]
      simp [h1.2]
    · rw [if_neg hn]
      unfold noSkipNamesList
      rw [h1.1.1, h1.1.2, ih h1.2]
      rfl

theorem noSkip_lookup {cs : List (String × FTree)} {k : String} {t : FTree}
    (h : noSkipNamesList cs = true) (hl : lookupChild cs k = some t) :
    noSkipNames t = true := by
  induction cs with
  | nil => cases hl
  | cons e rest ih =>
    obtain ⟨n, u⟩ := e
    unfold noSkipNamesList at h
    simp only [Bool.and_eq_true] at h
    unfold lookupChild at hl
    by_cases hn : n = k
    · rw [if_pos hn] at hl
      exact (Option.some_inj.mp hl) ▸ h.1.2
    · rw [if_neg hn] at hl
      exact ih h.2 hl

theorem noSkip_copyEntryList (alive : String → Bool) :
    ∀ (fuel : Nat) (src dest : List (String × FTree)),
      noSkipNamesList dest = true →
      noSkipNamesList (copyEntryList alive fuel src dest) = true := by
  intro fuel
  induction fuel with
  | zero =>
    intro src dest hdest
    rwa [copyEntryList_zero]
  | succ fuel ihf =>
    intro src
    induction src with
    | nil =>
      intro dest hdest
      rwa [copyEntryList_nil]
    | cons e rest ihs =>
      intro dest hdest
      obtain ⟨name, node⟩ := e
      rw [copyEntryList_cons]
      apply ihs
      cases hskip : skipDirectories.contains name with
      | true => rwa [copyEntryStep_skip alive (copyEntryList alive fuel) dest node hskip]
      | false =>
        cases node with
        | link t =>
          rw [copyEntryStep_link alive (copyEntryList alive fuel) dest t hskip]
          by_cases ha : alive t = true
          · rw [if_pos ha]
            exact noSkip_upsert hdest hskip rfl
          · rwa [if_neg ha]
        | file c =>
          rw [copyEntryStep_file alive (copyEntryList alive fuel) dest c hskip]
          exact noSkip_upsert hdest hskip rfl
        | special => rwa [copyEntryStep_special alive (copyEntryList alive fuel) dest hskip]
        | dir cs =>
          rw [copyEntryStep_dir alive (copyEntryList alive fuel) dest cs hskip]
          apply noSkip_upsert hdest hskip
          show noSkipNamesList _ = true
          apply ihf cs
          cases hl : lookupChild dest name with
          | none => rfl
          | some u =>
            cases u with
            | dir d => exact noSkip_lookup hdest hl
            | file c => rfl
            | link t => rfl
            | special => rfl

theorem copyEntryList_lookup_notin (alive : String → Bool) (fuel : Nat)
    (src dest : List (String × FTree)) (k : String)
    (h : ∀ e ∈ src, e.1 ≠ k) :
    lookupChild (copyEntryList alive (fuel + 1) src dest) k = lookupChild dest k := by
  induction src generalizing dest with
  | nil => rw [copyEntryList_nil]
  | cons e rest ih =>
    obtain ⟨name, node⟩ := e
    rw [copyEntryList_cons,
      ih _ (fun e he => h e (List.mem_cons_of_mem _ he))]
    have hname : k ≠ name :=
      fun hk => h (name, node) (List.mem_cons_self _ _) (hk ▸ rfl)
    cases hskip : skipDirectories.contains name with
    | true => rw [copyEntryStep_skip alive (copyEntryList alive fuel) dest node hskip]
    | false =>
      cases node with
      | link t =>
        rw [copyEntryStep_link alive (copyEntryList alive fuel) dest t hskip]
        by_cases ha : alive t = true
        · rw [if_pos ha, lookupChild_upsert_ne _ _ _ _ hname]
        · rw [if_neg ha]
      | file c =>
        rw [copyEntryStep_file alive (copyEntryList alive fuel) dest c hskip,
          lookupChild_upsert_ne _ _ _ _ hname]
      | special => rw [copyEntryStep_special alive (copyEntryList alive fuel) dest hskip]
      | dir cs =>
        rw [copyEntryStep_dir alive (copyEntryList alive fuel) dest cs hskip,
          lookupChild_upsert_ne _ _ _ _ hname]

/-- Claim C6: `copyDir` applied to any source listing (names distinct, as
`readdir` guarantees) and an absent destination, with any positive fuel
bound, (1) never produces any entry with a skip-set name anywhere at the
destination — in particular a nested `.git` directory is never copied;
(2) silently skips special files (sockets, FIFOs, devices); (3) silently
skips broken symlinks (those whose target does not resolve); and (4)
recreates live symlinks at the destination with their original target, not
dereferenced. -/
theorem copyDir_skipset_and_symlink_handling (alive : String → Bool)
    (fuel : Nat) (src : List (String × FTree))
    (hnodup : (src.map Prod.fst).Nodup) :
    noSkipNamesList (copyEntryList alive (fuel + 1) src []) = true ∧
    (∀ name node, (name, node) ∈ src →
      (node = .special →
        lookupChild (copyEntryList alive (fuel + 1) src []) name = none) ∧
      (∀ t, node = .link t → alive t = false →
        lookupChild (copyEntryList alive (fuel + 1) src []) name = none) ∧
      (∀ t, node = .link t → alive t = true →
        skipDirectories.contains name = false →
        lookupChild (copyEntryList alive (fuel + 1) src []) name
          = some (.link t))) := by
  constructor
  · exact noSkip_copyEntryList alive (fuel + 1) src [] rfl
  · intro name node hmem
    obtain ⟨pre, post, rfl⟩ := List.append_of_mem hmem
    have hmaps : (pre.map Prod.fst ++ name :: post.map Prod.fst).Nodup := by
      simpa using hnodup
    rw [List.nodup_append] at hmaps
    have hpre : ∀ e ∈ pre, e.1 ≠ name := by
      intro e he hk
      exact hmaps.2.2 (hk ▸ List.mem_map_of_mem Prod.fst he)
        (List.mem_cons_self _ _)
    have hpost : ∀ e ∈ post, e.1 ≠ name := by
      intro e he hk
      exact (List.nodup_cons.mp hmaps.2.1).1
        (hk ▸ List.mem_map_of_mem Prod.fst he)
    rw [copyEntryList_append, copyEntryList_cons]
    have hdpre : lookupChild (copyEntryList alive (fuel + 1) pre []) name = none :=
      copyEntryList_lookup_notin alive fuel pre [] name hpre
    rw [copyEntryList_lookup_notin alive fuel post _ name hpost]
    refine ⟨?_, ?_, ?_⟩
    · rintro rfl
      cases hskip : skipDirectories.contains name with
      | true =>
        rw [copyEntryStep_skip alive (copyEntryList alive fuel) _ _ hskip]
        exact hdpre
      | false =>
        rw [copyEntryStep_special alive (copyEntryList alive fuel) _ hskip]
        exact hdpre
    · rintro t rfl hdead
      cases hskip : skipDirectories.contains name with
      | true =>
        rw [copyEntryStep_skip alive (copyEntryList alive fuel) _ _ hskip]
        exact hdpre
      | false =>
        rw [copyEntryStep_link alive (copyEntryList alive fuel) _ t hskip]
        rw [if_neg (by rw [hdead]; simp)]
        exact hdpre
    · rintro t rfl halive hskip
      rw [copyEntryStep_link alive (copyEntryList alive fuel) _ t hskip, if_pos halive]
      exact lookupChild_upsert_self _ _ _

end Syncode

namespace Syncode

/-- Claim C6 witness: the theorem evaluated on a concrete listing with a
nested `.git` directory, a live symlink, a broken symlink and a socket. -/
theorem copyDir_skipset_and_symlink_handling_witness :
    (c6Src.map Prod.fst).Nodup ∧
    noSkipNamesList (copyEntryList c6Alive 3 c6Src []) = true ∧
    lookupChild (copyEntryList c6Alive 3 c6Src []) "sock" = none ∧
    lookupChild (copyEntryList c6Alive 3 c6Src []) "dead" = none ∧
    lookupChild (copyEntryList c6Alive 3 c6Src []) "live" = some (.link "ok") := by
  have h := copyDir_skipset_and_symlink_handling c6Alive 2 c6Src (by decide)
  refine ⟨by decide, h.1, ?_, ?_, ?_⟩
  · exact (h.2 "sock" .special
      (List.mem_cons_of_mem _ (List.mem_cons_of_mem _
        (List.mem_cons_of_mem _ (List.mem_cons_self _ _))))).1 rfl
  · exact (h.2 "dead" (.link "gone")
      (List.mem_cons_of_mem _ (List.mem_cons_of_mem _
        (List.mem_cons_self _ _)))).2.1 "gone" rfl (by decide)
  · exact (h.2 "live" (.link "ok")
      (List.mem_cons_of_mem _ (List.mem_cons_self _ _))).2.2 "ok" rfl
      (by decide) (by decide)

end Syncode

namespace Syncode

/-! ## Shared machinery for the export claims (C1, C2) -/

theorem lookupFs_cons_self (fs : Fs) (p : Path) (e : FEntry) :
    lookupFs ((p, e) :: fs) p = some e := by
  simp [lookupFs]

theorem lookupFs_cons_ne (fs : Fs) (p k : Path) (e : FEntry) (h : k ≠ p) :
    lookupFs ((p, e) :: fs) k = lookupFs fs k := by
  simp only [lookupFs]
  rw [if_neg (fun hp => h hp.symm)]

theorem existsSyncB_of_lookup_nonsymlink {fs : Fs} {p : Path} {e : FEntry}
    (h : lookupFs fs p = some e) (hns : ∀ t, e ≠ .symlink t) :
    existsSyncB fs p = true := by
  cases e with
  | file c => exact existsSyncB_of_lookup_file h
  | dirE => exact existsSyncB_of_lookup_dir h
  | symlink t => exact absurd rfl (hns t)
  | special => simp [existsSyncB, resolveEntry, h]

theorem isSymlinkB_false_of_lookup_nonsymlink {fs : Fs} {p : Path} {e : FEntry}
    (h : lookupFs fs p = some e) (hns : ∀ t, e ≠ .symlink t) :
    isSymlinkB fs p = false := by
  cases e with
  | file c => exact isSymlinkB_eq_false_of_lookup_file h
  | dirE => exact isSymlinkB_eq_false_of_lookup_dir h
  | symlink t => exact absurd rfl (hns t)
  | special => simp [isSymlinkB, h]

theorem isSymlinkB_false_of_lookup_none {fs : Fs} {p : Path}
    (h : lookupFs fs p = none) : isSymlinkB fs p = false := by
  simp [isSymlinkB, h]

theorem not_prefix_concat_append {q : Path} {x y : String} {t : Path}
    (h : x ≠ y) : ¬ (q ++ [x]) <+: (q ++ (y :: t)) := by
  rw [List.prefix_append_right_inj]
  intro hpre
  rcases hpre with ⟨u, hu⟩
  cases hu
  exact h rfl

theorem not_prefix_of_length_lt {p k : Path} (h : p.length < k.length) :
    ¬ k <+: p :=
  fun hk => absurd hk.length_le (by omega)

theorem mem_addDirs {fs : Fs} {p : Path} {e : Path × FEntry}
    (h : e ∈ addDirs fs p) : e ∈ fs ∨ e.1 <+: p := by
  unfold addDirs at h
  suffices H : ∀ (qs : List Path) (acc : Fs), e ∈ qs.foldl addDirStep acc →
      (∀ q ∈ qs, q <+: p) → e ∈ acc ∨ e.1 <+: p by
    exact H (pathPrefixes p) fs h (fun q hq => mem_pathPrefixes_prefix hq)
  intro qs
  induction qs with
  | nil => intro acc h _; exact Or.inl h
  | cons q rest ih =>
    intro acc h hq
    rw [List.foldl_cons] at h
    rcases ih _ h (fun q' hq' => hq q' (List.mem_cons_of_mem _ hq')) with h1 | h1
    · unfold addDirStep at h1
      split at h1
      · exact Or.inl h1
      · rcases List.mem_cons.mp h1 with h2 | h2
        · exact Or.inr (h2 ▸ hq q (List.mem_cons_self _ _))
        · exact Or.inl h2
    · exact Or.inr h1

theorem mem_ensureDir {fs : Fs} {p : Path} {e : Path × FEntry}
    (h : e ∈ ensureDirF fs p) : e ∈ fs ∨ e.1 <+: p := by
  unfold ensureDirF at h
  split at h
  · exact Or.inl h
  · exact mem_addDirs h

theorem mem_renameFs {fs : Fs} {src dst : Path} {e : Path × FEntry}
    (h : e ∈ renameFs fs src dst) : e ∈ fs ∨ dst <+: e.1 := by
  unfold renameFs at h
  obtain ⟨e', he', heq⟩ := List.mem_map.mp h
  by_cases hpre : src.isPrefixOf e'.1
  · rw [if_pos hpre] at heq
    exact Or.inr (heq ▸ List.prefix_append dst _)
  · rw [if_neg hpre] at heq
    exact Or.inl (heq ▸ (List.mem_filter.mp he').1)

theorem mem_removeDirFs {fs : Fs} {p : Path} {e : Path × FEntry}
    (h : e ∈ removeDirFs fs p) : e ∈ fs := by
  unfold removeDirFs at h
  split at h
  · exact (List.mem_filter.mp h).1
  · exact h

theorem mem_unlinkFs {fs : Fs} {p : Path} {e : Path × FEntry}
    (h : e ∈ unlinkFs fs p) : e ∈ fs :=
  (List.mem_filter.mp h).1

end Syncode

namespace Syncode

/-! ### OpenCode export characterizations -/

theorem opencodeExport_real_eq (home : String) (fs : Fs) (repoPath p : Path)
    (hg1 : existsSyncB fs repoPath = true) (hg2 : isDirectoryB fs repoPath = true)
    (hex : existsSyncB fs p = true) (hnl : isSymlinkB fs p = false) :
    opencodeExport home fs repoPath p =
      opencodeExportFinish home
        (renameFs (if existsSyncB fs (backupPathOf p) = true then
            removeDirFs fs (backupPathOf p) else fs) p (backupPathOf p))
        (some (contractHome home (renderPath (backupPathOf p)))) repoPath p := by
  unfold opencodeExport
  rw [if_neg (by simp [hg1, hg2]), if_neg (by simp [hnl]), if_pos ⟨hex, hnl⟩]

theorem opencodeExport_linked_eq (home : String) (fs : Fs) (repoPath p : Path)
    (hg1 : existsSyncB fs repoPath = true) (hg2 : isDirectoryB fs repoPath = true)
    (hl : lookupFs fs p = some (.symlink repoPath)) :
    opencodeExport home fs repoPath p =
      ({ success := true, message := "Already linked to repo - no export needed",
         linkedTo := some (contractHome home (renderPath repoPath)) }, fs) := by
  unfold opencodeExport
  rw [if_neg (by simp [hg1, hg2]),
    if_pos ⟨isSymlinkB_of_lookup hl, getSymlinkTargetF_of_lookup hl⟩]

theorem opencodeExport_othersym_eq (home : String) (fs : Fs) (repoPath p : Path)
    (hg1 : existsSyncB fs repoPath = true) (hg2 : isDirectoryB fs repoPath = true)
    (hsl : isSymlinkB fs p = true)
    (hnt : ¬ getSymlinkTargetF fs p = some repoPath) :
    opencodeExport home fs repoPath p =
      opencodeExportFinish home (unlinkFs fs p) none repoPath p := by
  unfold opencodeExport
  rw [if_neg (by simp [hg1, hg2]), if_neg (by simp [hnt]),
    if_neg (by simp [hsl]), if_pos hsl]

theorem opencodeExport_absent_eq (home : String) (fs : Fs) (repoPath p : Path)
    (hg1 : existsSyncB fs repoPath = true) (hg2 : isDirectoryB fs repoPath = true)
    (hsl : isSymlinkB fs p = false) (hex : existsSyncB fs p = false) :
    opencodeExport home fs repoPath p =
      opencodeExportFinish home fs none repoPath p := by
  unfold opencodeExport
  rw [if_neg (by simp [hg1, hg2]), if_neg (by simp [hsl]),
    if_neg (by simp [hex]), if_neg (by simp [hsl])]

theorem opencodeExportFinish_spec (home : String) (fs1 : Fs) (b : Option String)
    (repoPath p : Path) :
    (opencodeExportFinish home fs1 b repoPath p).1.success = true ∧
    (opencodeExportFinish home fs1 b repoPath p).1.backedUp = b ∧
    lookupFs (opencodeExportFinish home fs1 b repoPath p).2 p
      = some (.symlink repoPath) ∧
    (∀ k, ¬ p <+: k → ¬ k <+: dirname p →
      lookupFs (opencodeExportFinish home fs1 b repoPath p).2 k = lookupFs fs1 k) := by
  refine ⟨rfl, rfl, ?_, ?_⟩
  · exact lookupFs_cons_self _ _ _
  · intro k hk1 hk2
    have hkp : k ≠ p := by
      intro h
      rw [h] at hk1
      exact hk1 (List.prefix_refl p)
    unfold opencodeExportFinish symlinkF
    rw [lookupFs_cons_ne _ _ _ _ hkp, lookupFs_ensureDir_out hk2]

/-- OpenCode export, real-content case (for claim C1): a destination that
exists as real (non-symlink) content is first renamed to the sibling
`.backup` path — whose subtree afterwards reads exactly as the pre-export
destination subtree — and the destination becomes a symlink to the repo
path; the result reports success and the backup location. -/
theorem opencode_export_real_content (home : String) (fs : Fs) (repoPath q : Path)
    (a : String) (sE : FEntry)
    (hrepo : lookupFs fs repoPath = some .dirE)
    (hsysb : lookupFs fs (q ++ [a]) = some sE) (hs_nl : ∀ t, sE ≠ .symlink t)
    (hbp : ∀ e ∈ fs, (q ++ [a ++ ".backup"]) <+: e.1 → e.1 = q ++ [a ++ ".backup"]) :
    (opencodeExport home fs repoPath (q ++ [a])).1.success = true ∧
    (opencodeExport home fs repoPath (q ++ [a])).1.backedUp
      = some (contractHome home (renderPath (q ++ [a ++ ".backup"]))) ∧
    lookupFs (opencodeExport home fs repoPath (q ++ [a])).2 (q ++ [a])
      = some (.symlink repoPath) ∧
    (∀ t, lookupFs (opencodeExport home fs repoPath (q ++ [a])).2
        ((q ++ [a ++ ".backup"]) ++ t) = lookupFs fs ((q ++ [a]) ++ t)) ∧
    (∀ k, ¬ (q ++ [a]) <+: k → ¬ (q ++ [a ++ ".backup"]) <+: k → ¬ k <+: q →
      lookupFs (opencodeExport home fs repoPath (q ++ [a])).2 k = lookupFs fs k) := by
  have hex : existsSyncB fs (q ++ [a]) = true :=
    existsSyncB_of_lookup_nonsymlink hsysb hs_nl
  have hnl : isSymlinkB fs (q ++ [a]) = false :=
    isSymlinkB_false_of_lookup_nonsymlink hsysb hs_nl
  have hpbp : ¬ (q ++ [a]) <+: (q ++ [a ++ ".backup"]) :=
    not_prefix_concat_ne (string_ne_append_backup a)
  have hbpp : ¬ (q ++ [a ++ ".backup"]) <+: (q ++ [a]) :=
    not_prefix_concat_ne (fun h => string_ne_append_backup a h.symm)
  rw [opencodeExport_real_eq home fs repoPath (q ++ [a])
    (existsSyncB_of_lookup_dir hrepo) (isDirectoryB_of_lookup_dir hrepo) hex hnl,
    backupPathOf_concat]
  obtain ⟨h1, h2, h3, h4⟩ := opencodeExportFinish_spec home
    (renameFs (if existsSyncB fs (q ++ [a ++ ".backup"]) = true then
      removeDirFs fs (q ++ [a ++ ".backup"]) else fs) (q ++ [a]) (q ++ [a ++ ".backup"]))
    (some (contractHome home (renderPath (q ++ [a ++ ".backup"])))) repoPath (q ++ [a])
  refine ⟨h1, h2, h3, ?_, ?_⟩
  · intro t
    have hkey : ¬ (q ++ [a]) <+: ((q ++ [a ++ ".backup"]) ++ t) := by
      rw [List.append_assoc]
      exact not_prefix_concat_append (string_ne_append_backup a)
    have hdir : ¬ ((q ++ [a ++ ".backup"]) ++ t) <+: dirname (q ++ [a]) := by
      apply not_prefix_of_length_lt
      unfold dirname
      rw [List.dropLast_concat]
      simp only [List.length_append, List.length_cons, List.length_nil]
      omega
    rw [h4 _ hkey hdir]
    have hclean : ∀ e ∈ (if existsSyncB fs (q ++ [a ++ ".backup"]) = true then
        removeDirFs fs (q ++ [a ++ ".backup"]) else fs),
        (q ++ [a ++ ".backup"]) <+: e.1 → e.1 = q ++ [a ++ ".backup"] := by
      split
      · intro e he hpre
        rename_i hx
        unfold removeDirFs at he
        rw [if_pos hx] at he
        have := (List.mem_filter.mp he).2
        simp only [decide_eq_true_eq] at this
        exact absurd (List.isPrefixOf_iff_prefix.mpr hpre) this
      · exact hbp
    rw [lookupFs_rename_moved t hclean hpbp]
    split
    · rename_i hx
      exact lookupFs_removeDir_out
        (prefix_incomparable hpbp hbpp (List.prefix_append _ t))
    · rfl
  · intro k hk1 hk2 hk3
    have hdir : ¬ k <+: dirname (q ++ [a]) := by
      unfold dirname
      rwa [List.dropLast_concat]
    rw [h4 k hk1 hdir, lookupFs_rename_out hk1 hk2]
    split
    · exact lookupFs_removeDir_out hk2
    · rfl

end Syncode

namespace Syncode

/-- OpenCode export is idempotent (for claim C2): whatever state the first
export found (given a real repo directory and the system path not
enclosing/enclosed by the repo path), it leaves the system path a symlink
to the repo path, and an immediately repeated export short-circuits with
the "Already linked" success message, no backup, and an unchanged
filesystem. -/
theorem opencode_export_idempotent (home : String) (fs : Fs) (repoPath q : Path)
    (a : String)
    (hrepo : lookupFs fs repoPath = some .dirE)
    (hQR : ¬ q <+: repoPath) (hRQ : ¬ repoPath <+: q) :
    lookupFs (opencodeExport home fs repoPath (q ++ [a])).2 (q ++ [a])
      = some (.symlink repoPath) ∧
    opencodeExport home (opencodeExport home fs repoPath (q ++ [a])).2
        repoPath (q ++ [a])
      = ({ success := true, message := "Already linked to repo - no export needed",
           linkedTo := some (contractHome home (renderPath repoPath)) },
         (opencodeExport home fs repoPath (q ++ [a])).2) := by
  have hg1 := existsSyncB_of_lookup_dir hrepo
  have hg2 := isDirectoryB_of_lookup_dir hrepo
  have hqpre : q <+: q ++ [a] := List.prefix_append q [a]
  have hPR : ¬ (q ++ [a]) <+: repoPath :=
    fun h => hQR (hqpre.trans h)
  have hBR : ¬ (q ++ [a ++ ".backup"]) <+: repoPath :=
    fun h => hQR ((List.prefix_append q [a ++ ".backup"]).trans h)
  have hRdir : ¬ repoPath <+: dirname (q ++ [a]) := by
    unfold dirname
    rwa [List.dropLast_concat]
  have key : lookupFs (opencodeExport home fs repoPath (q ++ [a])).2 (q ++ [a])
        = some (.symlink repoPath) ∧
      lookupFs (opencodeExport home fs repoPath (q ++ [a])).2 repoPath
        = some .dirE := by
    by_cases hlink : lookupFs fs (q ++ [a]) = some (.symlink repoPath)
    · rw [opencodeExport_linked_eq home fs repoPath (q ++ [a]) hg1 hg2 hlink]
      exact ⟨hlink, hrepo⟩
    · by_cases hsym : isSymlinkB fs (q ++ [a]) = true
      · have hnt : ¬ getSymlinkTargetF fs (q ++ [a]) = some repoPath := by
          intro ht
          unfold getSymlinkTargetF at ht
          unfold isSymlinkB at hsym
          cases hl : lookupFs fs (q ++ [a]) with
          | none => rw [hl] at hsym; simp at hsym
          | some e =>
            cases e with
            | symlink t =>
              rw [hl] at ht
              simp at ht
              exact hlink (ht ▸ hl)
            | file c => rw [hl] at hsym; simp at hsym
            | dirE => rw [hl] at hsym; simp at hsym
            | special => rw [hl] at hsym; simp at hsym
        rw [opencodeExport_othersym_eq home fs repoPath (q ++ [a]) hg1 hg2 hsym hnt]
        obtain ⟨_, _, h3, h4⟩ := opencodeExportFinish_spec home
          (unlinkFs fs (q ++ [a])) none repoPath (q ++ [a])
        refine ⟨h3, ?_⟩
        have hrp : repoPath ≠ q ++ [a] := by
          intro h
          rw [h] at hPR
          exact hPR (List.prefix_refl _)
        rw [h4 repoPath hPR hRdir, lookupFs_unlink_ne hrp]
        exact hrepo
      · have hsym' : isSymlinkB fs (q ++ [a]) = false := by
          cases h : isSymlinkB fs (q ++ [a])
          · rfl
          · exact absurd h hsym
        by_cases hex : existsSyncB fs (q ++ [a]) = true
        · rw [opencodeExport_real_eq home fs repoPath (q ++ [a]) hg1 hg2 hex hsym']
          obtain ⟨_, _, h3, h4⟩ := opencodeExportFinish_spec home
            (renameFs (if existsSyncB fs (backupPathOf (q ++ [a])) = true then
              removeDirFs fs (backupPathOf (q ++ [a])) else fs)
              (q ++ [a]) (backupPathOf (q ++ [a])))
            (some (contractHome home (renderPath (backupPathOf (q ++ [a])))))
            repoPath (q ++ [a])
          refine ⟨h3, ?_⟩
          rw [h4 repoPath hPR hRdir]
          rw [backupPathOf_concat] at *
          rw [lookupFs_rename_out hPR hBR]
          split
          · rw [lookupFs_removeDir_out hBR]
            exact hrepo
          · exact hrepo
        · have hex' : existsSyncB fs (q ++ [a]) = false := by
            cases h : existsSyncB fs (q ++ [a])
            · rfl
            · exact absurd h hex
          rw [opencodeExport_absent_eq home fs repoPath (q ++ [a]) hg1 hg2 hsym' hex']
          obtain ⟨_, _, h3, h4⟩ := opencodeExportFinish_spec home fs none
            repoPath (q ++ [a])
          refine ⟨h3, ?_⟩
          rw [h4 repoPath hPR hRdir]
          exact hrepo
  refine ⟨key.1, ?_⟩
  exact opencodeExport_linked_eq home _ repoPath (q ++ [a])
    (existsSyncB_of_lookup_dir key.2) (isDirectoryB_of_lookup_dir key.2) key.1

end Syncode

namespace Syncode

/-! ### Cursor export machinery -/

theorem prefix_disjoint_trans {a b k : Path} (h1 : ¬ a <+: b) (h2 : ¬ b <+: a)
    (hk : b <+: k) (x : String) : ¬ (a ++ [x]) <+: k := by
  intro h
  have ha : a <+: k := (List.prefix_append a [x]).trans h
  rcases List.prefix_or_prefix_of_prefix ha hk with h' | h'
  · exact h1 h'
  · exact h2 h'

theorem concat_prefix_concat_eq {q : Path} {x y : String}
    (h : (q ++ [x]) <+: (q ++ [y])) : x = y := by
  have heq := List.IsPrefix.eq_of_length h (by simp)
  have := List.append_cancel_left heq
  exact (List.cons.injEq _ _ _ _).mp this |>.1

/-- One cursor export iteration touches only the pattern's destination and
backup subtrees. -/
theorem cursorStep_frame (home : String) (repoPath sysPath : Path)
    (st : Fs × Option String × List String) (pat : String) (k : Path)
    (h1 : ¬ (sysPath ++ [pat]) <+: k)
    (h2 : ¬ (sysPath ++ [pat ++ ".backup"]) <+: k) :
    lookupFs (cursorExportStep home repoPath sysPath st pat).1 k
      = lookupFs st.1 k := by
  have hkd : k ≠ sysPath ++ [pat] := by
    intro h
    rw [h] at h1
    exact h1 (List.prefix_refl _)
  have hkb : k ≠ sysPath ++ [pat ++ ".backup"] := by
    intro h
    rw [h] at h2
    exact h2 (List.prefix_refl _)
  unfold cursorExportStep
  rw [backupPathOf_concat]
  split
  · rfl
  · split
    · show lookupFs (symlinkF _ _ _) k = _
      unfold symlinkF
      rw [lookupFs_cons_ne _ _ _ _ hkd, lookupFs_rename_out h1 h2]
      split
      · split
        · exact lookupFs_removeDir_out h2
        · exact lookupFs_unlink_ne hkb
      · rfl
    · split
      · show lookupFs (symlinkF _ _ _) k = _
        unfold symlinkF
        rw [lookupFs_cons_ne _ _ _ _ hkd]
        exact lookupFs_unlink_ne hkd
      · show lookupFs (symlinkF _ _ _) k = _
        unfold symlinkF
        rw [lookupFs_cons_ne _ _ _ _ hkd]

theorem cursorFold_frame (home : String) (repoPath sysPath : Path)
    (ps : List String) (st : Fs × Option String × List String) (k : Path)
    (h : ∀ pat ∈ ps, ¬ (sysPath ++ [pat]) <+: k ∧
      ¬ (sysPath ++ [pat ++ ".backup"]) <+: k) :
    lookupFs (ps.foldl (cursorExportStep home repoPath sysPath) st).1 k
      = lookupFs st.1 k := by
  induction ps generalizing st with
  | nil => rfl
  | cons pat rest ih =>
    rw [List.foldl_cons,
      ih _ (fun p hp => h p (List.mem_cons_of_mem _ hp))]
    exact cursorStep_frame home repoPath sysPath st pat k
      (h pat (List.mem_cons_self _ _)).1 (h pat (List.mem_cons_self _ _)).2

theorem mem_cursorStep {home : String} {repoPath sysPath : Path}
    {st : Fs × Option String × List String} {pat : String} {e : Path × FEntry}
    (h : e ∈ (cursorExportStep home repoPath sysPath st pat).1) :
    e ∈ st.1 ∨ (sysPath ++ [pat]) <+: e.1 ∨
      (sysPath ++ [pat ++ ".backup"]) <+: e.1 := by
  unfold cursorExportStep at h
  rw [backupPathOf_concat] at h
  split at h
  · exact Or.inl h
  · split at h
    · rcases List.mem_cons.mp h with h' | h'
      · exact Or.inr (Or.inl (h' ▸ List.prefix_refl _))
      · rcases mem_renameFs h' with h'' | h''
        · split at h''
          · split at h''
            · exact Or.inl (mem_removeDirFs h'')
            · exact Or.inl (mem_unlinkFs h'')
          · exact Or.inl h''
        · exact Or.inr (Or.inr h'')
    · split at h
      · rcases List.mem_cons.mp h with h' | h'
        · exact Or.inr (Or.inl (h' ▸ List.prefix_refl _))
        · exact Or.inl (mem_unlinkFs h')
      · rcases List.mem_cons.mp h with h' | h'
        · exact Or.inr (Or.inl (h' ▸ List.prefix_refl _))
        · exact Or.inl h'

theorem mem_cursorFold {home : String} {repoPath sysPath : Path}
    {ps : List String} {st : Fs × Option String × List String} {e : Path × FEntry}
    (h : e ∈ (ps.foldl (cursorExportStep home repoPath sysPath) st).1) :
    e ∈ st.1 ∨ ∃ pat ∈ ps, (sysPath ++ [pat]) <+: e.1 ∨
      (sysPath ++ [pat ++ ".backup"]) <+: e.1 := by
  induction ps generalizing st with
  | nil => exact Or.inl h
  | cons pat rest ih =>
    rw [List.foldl_cons] at h
    rcases ih h with h' | h'
    · rcases mem_cursorStep h' with h'' | h''
      · exact Or.inl h''
      · exact Or.inr ⟨pat, List.mem_cons_self _ _, h''⟩
    · obtain ⟨p, hp, hh⟩ := h'
      exact Or.inr ⟨p, List.mem_cons_of_mem _ hp, hh⟩

end Syncode

namespace Syncode

/-- Whatever state a cursor export iteration finds its destination in, when
the repo-side source entry is real content the iteration ends with the
destination bound to a symlink to that source. -/
theorem cursorStep_link (home : String) (repoPath sysPath : Path)
    (st : Fs × Option String × List String) (pat : String) (sE : FEntry)
    (hsrcb : lookupFs st.1 (repoPath ++ [pat]) = some sE)
    (hs_nl : ∀ t, sE ≠ .symlink t) :
    lookupFs (cursorExportStep home repoPath sysPath st pat).1
      (sysPath ++ [pat]) = some (.symlink (repoPath ++ [pat])) := by
  have hex : existsSyncB st.1 (repoPath ++ [pat]) = true :=
    existsSyncB_of_lookup_nonsymlink hsrcb hs_nl
  unfold cursorExportStep
  rw [if_neg (by rw [hex]; simp)]
  split
  · exact lookupFs_cons_self _ _ _
  · split
    · exact lookupFs_cons_self _ _ _
    · exact lookupFs_cons_self _ _ _

/-- A cursor export iteration whose destination holds real (non-symlink)
content renames it to the sibling `.backup` path first: afterwards the
backup subtree reads exactly as the old destination subtree, and the
destination is the fresh symlink. -/
theorem cursorStep_target (home : String) (repoPath sysPath : Path)
    (st : Fs × Option String × List String) (pat : String) (sE dE : FEntry)
    (hsrcb : lookupFs st.1 (repoPath ++ [pat]) = some sE)
    (hs_nl : ∀ t, sE ≠ .symlink t)
    (hdstb : lookupFs st.1 (sysPath ++ [pat]) = some dE)
    (hd_nl : ∀ t, dE ≠ .symlink t)
    (hclean : ∀ e ∈ st.1, (sysPath ++ [pat ++ ".backup"]) <+: e.1 →
      e.1 = sysPath ++ [pat ++ ".backup"]) :
    lookupFs (cursorExportStep home repoPath sysPath st pat).1
      (sysPath ++ [pat]) = some (.symlink (repoPath ++ [pat])) ∧
    (∀ t, lookupFs (cursorExportStep home repoPath sysPath st pat).1
        ((sysPath ++ [pat ++ ".backup"]) ++ t)
      = lookupFs st.1 ((sysPath ++ [pat]) ++ t)) := by
  have hex : existsSyncB st.1 (repoPath ++ [pat]) = true :=
    existsSyncB_of_lookup_nonsymlink hsrcb hs_nl
  have hdex : existsSyncB st.1 (sysPath ++ [pat]) = true :=
    existsSyncB_of_lookup_nonsymlink hdstb hd_nl
  have hdnl : isSymlinkB st.1 (sysPath ++ [pat]) = false :=
    isSymlinkB_false_of_lookup_nonsymlink hdstb hd_nl
  have hpbd : ¬ (sysPath ++ [pat]) <+: (sysPath ++ [pat ++ ".backup"]) :=
    not_prefix_concat_ne (string_ne_append_backup pat)
  have hbpd : ¬ (sysPath ++ [pat ++ ".backup"]) <+: (sysPath ++ [pat]) :=
    not_prefix_concat_ne (fun h => string_ne_append_backup pat h.symm)
  unfold cursorExportStep
  rw [backupPathOf_concat, if_neg (by rw [hex]; simp), if_pos ⟨hdex, hdnl⟩]
  constructor
  · exact lookupFs_cons_self _ _ _
  · intro t
    have hkd : (sysPath ++ [pat ++ ".backup"]) ++ t ≠ sysPath ++ [pat] := by
      intro h
      exact hbpd (h ▸ ⟨t, rfl⟩)
    show lookupFs (symlinkF _ _ _) _ = _
    unfold symlinkF
    rw [lookupFs_cons_ne _ _ _ _ hkd]
    have hclean2 : ∀ e ∈ (if existsSyncB st.1 (sysPath ++ [pat ++ ".backup"]) = true then
        (if isDirectoryB st.1 (sysPath ++ [pat ++ ".backup"]) = true then
          removeDirFs st.1 (sysPath ++ [pat ++ ".backup"])
        else unlinkFs st.1 (sysPath ++ [pat ++ ".backup"]))
      else st.1), (sysPath ++ [pat ++ ".backup"]) <+: e.1 →
        e.1 = sysPath ++ [pat ++ ".backup"] := by
      split
      · split
        · intro e he hpre
          rename_i hx _
          unfold removeDirFs at he
          rw [if_pos hx] at he
          have := (List.mem_filter.mp he).2
          simp only [decide_eq_true_eq] at this
          exact absurd (List.isPrefixOf_iff_prefix.mpr hpre) this
        · intro e he hpre
          exact hclean e (mem_unlinkFs he) hpre
      · exact hclean
    rw [lookupFs_rename_moved t hclean2 hpbd]
    have hout : ¬ (sysPath ++ [pat ++ ".backup"]) <+: ((sysPath ++ [pat]) ++ t) :=
      prefix_incomparable hpbd hbpd (List.prefix_append _ t)
    split
    · split
      · exact lookupFs_removeDir_out hout
      · exact lookupFs_filter_ne (fun h => hout (h ▸ List.prefix_refl _))
    · rfl

end Syncode

namespace Syncode

/-- Cursor export, real-content case (for claim C1): a scoped entry whose
repo-side source exists as real content and whose system-side destination
exists as real (non-symlink) content is backed up to the sibling `.backup`
path — whose subtree afterwards reads exactly as the pre-export destination
subtree — and the destination becomes a symlink to the repo-side entry;
the export reports success. -/
theorem cursor_export_real_content (home : String) (fs : Fs)
    (repoPath sysPath : Path) (pat : String) (sE dE : FEntry)
    (hpat : pat ∈ cursorSyncPatterns)
    (hrepo : lookupFs fs repoPath = some .dirE)
    (hsrcb : lookupFs fs (repoPath ++ [pat]) = some sE)
    (hs_nl : ∀ t, sE ≠ .symlink t)
    (hdstb : lookupFs fs (sysPath ++ [pat]) = some dE)
    (hd_nl : ∀ t, dE ≠ .symlink t)
    (hbp : ∀ e ∈ fs, (sysPath ++ [pat ++ ".backup"]) <+: e.1 →
      e.1 = sysPath ++ [pat ++ ".backup"])
    (hd1 : ¬ sysPath <+: repoPath) (hd2 : ¬ repoPath <+: sysPath) :
    (cursorExport home fs repoPath sysPath).1.success = true ∧
    lookupFs (cursorExport home fs repoPath sysPath).2 (sysPath ++ [pat])
      = some (.symlink (repoPath ++ [pat])) ∧
    (∀ t, lookupFs (cursorExport home fs repoPath sysPath).2
        ((sysPath ++ [pat ++ ".backup"]) ++ t)
      = lookupFs fs ((sysPath ++ [pat]) ++ t)) := by
  have hind : cursorSyncPatterns.Nodup ∧
      ∀ x ∈ cursorSyncPatterns, ∀ y ∈ cursorSyncPatterns, x ≠ y →
        x ≠ y ++ ".backup" ∧ x ++ ".backup" ≠ y ∧
          x ++ ".backup" ≠ y ++ ".backup" := by decide
  obtain ⟨pre, post, hsplit⟩ := List.append_of_mem hpat
  have hnd := hind.1
  rw [hsplit] at hnd
  have hndm : (pre ++ pat :: post).Nodup := hnd
  have hxpre : ∀ x ∈ pre, x ∈ cursorSyncPatterns ∧ x ≠ pat := by
    intro x hx
    refine ⟨by rw [hsplit]; exact List.mem_append_left _ hx, ?_⟩
    intro hxp
    rw [List.nodup_append] at hndm
    exact hndm.2.2 hx (hxp ▸ List.mem_cons_self _ _)
  have hxpost : ∀ x ∈ post, x ∈ cursorSyncPatterns ∧ x ≠ pat := by
    intro x hx
    refine ⟨by
      rw [hsplit]
      exact List.mem_append_right _ (List.mem_cons_of_mem _ hx), ?_⟩
    intro hxp
    rw [List.nodup_append] at hndm
    exact (List.nodup_cons.mp hndm.2.1).1 (hxp ▸ hx)
  have hpatm : pat ∈ cursorSyncPatterns := hpat
  -- frame conditions for the four key families
  have hcondK1 : ∀ x, x ∈ pre ∨ x ∈ post →
      ¬ (sysPath ++ [x]) <+: (repoPath ++ [pat]) ∧
      ¬ (sysPath ++ [x ++ ".backup"]) <+: (repoPath ++ [pat]) :=
    fun x _ =>
      ⟨prefix_disjoint_trans hd1 hd2 (List.prefix_append _ _) x,
       prefix_disjoint_trans hd1 hd2 (List.prefix_append _ _) (x ++ ".backup")⟩
  have hcondK2 : ∀ x, (x ∈ pre ∨ x ∈ post) → ∀ t,
      ¬ (sysPath ++ [x]) <+: ((sysPath ++ [pat]) ++ t) ∧
      ¬ (sysPath ++ [x ++ ".backup"]) <+: ((sysPath ++ [pat]) ++ t) := by
    intro x hx t
    have hxm : x ∈ cursorSyncPatterns ∧ x ≠ pat := by
      rcases hx with h | h
      · exact hxpre x h
      · exact hxpost x h
    have hi := hind.2 x hxm.1 pat hpatm hxm.2
    rw [List.append_assoc]
    exact ⟨not_prefix_concat_append hxm.2, not_prefix_concat_append hi.2.1⟩
  have hcondK3 : ∀ x, (x ∈ pre ∨ x ∈ post) → ∀ t,
      ¬ (sysPath ++ [x]) <+: ((sysPath ++ [pat ++ ".backup"]) ++ t) ∧
      ¬ (sysPath ++ [x ++ ".backup"]) <+:
        ((sysPath ++ [pat ++ ".backup"]) ++ t) := by
    intro x hx t
    have hxm : x ∈ cursorSyncPatterns ∧ x ≠ pat := by
      rcases hx with h | h
      · exact hxpre x h
      · exact hxpost x h
    have hi := hind.2 x hxm.1 pat hpatm hxm.2
    rw [List.append_assoc]
    exact ⟨not_prefix_concat_append hi.1, not_prefix_concat_append hi.2.2⟩
  -- the guard passes
  unfold cursorExport
  rw [if_neg (by simp [existsSyncB_of_lookup_dir hrepo,
    isDirectoryB_of_lookup_dir hrepo])]
  -- facts at the state the target iteration runs in
  have hens : ∀ k : Path, sysPath.length < k.length →
      lookupFs (ensureDirF fs sysPath) k = lookupFs fs k := by
    intro k hk
    exact lookupFs_ensureDir_out (not_prefix_of_length_lt hk)
  have hlen2 : ∀ (x : String) (t : Path),
      sysPath.length < ((sysPath ++ [x]) ++ t).length := by
    intro x t
    simp only [List.length_append, List.length_cons, List.length_nil]
    omega
  have hsrcg : lookupFs (pre.foldl (cursorExportStep home repoPath sysPath)
      (ensureDirF fs sysPath, none, [])).1 (repoPath ++ [pat]) = some sE := by
    rw [cursorFold_frame home repoPath sysPath pre _ _
      (fun x hx => hcondK1 x (Or.inl hx))]
    show lookupFs (ensureDirF fs sysPath) _ = _
    rw [lookupFs_ensureDir_out (fun hk => hd2 ((List.prefix_append _ _).trans hk))]
    exact hsrcb
  have hdstg : lookupFs (pre.foldl (cursorExportStep home repoPath sysPath)
      (ensureDirF fs sysPath, none, [])).1 (sysPath ++ [pat]) = some dE := by
    rw [cursorFold_frame home repoPath sysPath pre _ _
      (fun x hx => by
        have := hcondK2 x (Or.inl hx) []
        rwa [List.append_nil] at this)]
    show lookupFs (ensureDirF fs sysPath) _ = _
    rw [hens _ (by
      have := hlen2 pat []
      rwa [List.append_nil] at this)]
    exact hdstb
  have hcleang : ∀ e ∈ (pre.foldl (cursorExportStep home repoPath sysPath)
      (ensureDirF fs sysPath, none, [])).1,
      (sysPath ++ [pat ++ ".backup"]) <+: e.1 →
        e.1 = sysPath ++ [pat ++ ".backup"] := by
    intro e he hpre2
    rcases mem_cursorFold he with h | h
    · rcases mem_ensureDir h with h' | h'
      · exact hbp e h' hpre2
      · exfalso
        have hle := h'.length_le
        have hle2 := hpre2.length_le
        simp only [List.length_append, List.length_cons, List.length_nil] at hle2
        omega
    · obtain ⟨x, hx, hh⟩ := h
      have hxm := hxpre x hx
      have hi := hind.2 x hxm.1 pat hpatm hxm.2
      rcases hh with hh | hh
      · exfalso
        rcases List.prefix_or_prefix_of_prefix hh hpre2 with h' | h'
        · exact hi.1 (concat_prefix_concat_eq h')
        · exact hi.1 (concat_prefix_concat_eq h').symm
      · exfalso
        rcases List.prefix_or_prefix_of_prefix hh hpre2 with h' | h'
        · exact hi.2.2 (concat_prefix_concat_eq h')
        · exact hi.2.2 (concat_prefix_concat_eq h').symm
  obtain ⟨htgt1, htgt2⟩ := cursorStep_target home repoPath sysPath
    (pre.foldl (cursorExportStep home repoPath sysPath)
      (ensureDirF fs sysPath, none, [])) pat sE dE hsrcg hs_nl hdstg hd_nl hcleang
  refine ⟨rfl, ?_, ?_⟩
  · show lookupFs (cursorSyncPatterns.foldl
      (cursorExportStep home repoPath sysPath)
      (ensureDirF fs sysPath, none, [])).1 (sysPath ++ [pat])
        = some (.symlink (repoPath ++ [pat]))
    rw [hsplit, List.foldl_append, List.foldl_cons]
    rw [cursorFold_frame home repoPath sysPath post _ _
      (fun x hx => by
        have := hcondK2 x (Or.inr hx) []
        rwa [List.append_nil] at this)]
    exact htgt1
  · intro t
    show lookupFs (cursorSyncPatterns.foldl
      (cursorExportStep home repoPath sysPath)
      (ensureDirF fs sysPath, none, [])).1 ((sysPath ++ [pat ++ ".backup"]) ++ t)
        = lookupFs fs ((sysPath ++ [pat]) ++ t)
    rw [hsplit, List.foldl_append, List.foldl_cons]
    rw [cursorFold_frame home repoPath sysPath post _ _
      (fun x hx => hcondK3 x (Or.inr hx) t)]
    rw [htgt2 t]
    rw [cursorFold_frame home repoPath sysPath pre _ _
      (fun x hx => hcondK2 x (Or.inl hx) t)]
    show lookupFs (ensureDirF fs sysPath) _ = _
    rw [hens _ (hlen2 pat t)]

end Syncode

namespace Syncode

/-- What a cursor export leaves behind (for claim C2): the repo side and the
system root are untouched, and every scoped entry with real repo-side
content ends linked (a symlink at the destination pointing at the repo
entry), whatever state its destination was in. -/
theorem cursor_export_state (home : String) (fs : Fs) (repoPath sysPath : Path)
    (hrepo : lookupFs fs repoPath = some .dirE)
    (hsys : lookupFs fs sysPath = some .dirE)
    (hd1 : ¬ sysPath <+: repoPath) (hd2 : ¬ repoPath <+: sysPath) :
    (cursorExport home fs repoPath sysPath).1.success = true ∧
    lookupFs (cursorExport home fs repoPath sysPath).2 repoPath = some .dirE ∧
    lookupFs (cursorExport home fs repoPath sysPath).2 sysPath = some .dirE ∧
    (∀ pat ∈ cursorSyncPatterns,
      lookupFs (cursorExport home fs repoPath sysPath).2 (repoPath ++ [pat])
        = lookupFs fs (repoPath ++ [pat])) ∧
    (∀ pat ∈ cursorSyncPatterns, ∀ sE : FEntry,
      lookupFs fs (repoPath ++ [pat]) = some sE → (∀ t, sE ≠ .symlink t) →
      lookupFs (cursorExport home fs repoPath sysPath).2 (sysPath ++ [pat])
        = some (.symlink (repoPath ++ [pat]))) := by
  have hind : cursorSyncPatterns.Nodup ∧
      ∀ x ∈ cursorSyncPatterns, ∀ y ∈ cursorSyncPatterns, x ≠ y →
        x ≠ y ++ ".backup" ∧ x ++ ".backup" ≠ y ∧
          x ++ ".backup" ≠ y ++ ".backup" := by decide
  have hens0 : ensureDirF fs sysPath = fs := by
    unfold ensureDirF
    rw [if_pos (existsSyncB_of_lookup_dir hsys)]
  unfold cursorExport
  rw [if_neg (by simp [existsSyncB_of_lookup_dir hrepo,
    isDirectoryB_of_lookup_dir hrepo])]
  refine ⟨rfl, ?_, ?_, ?_, ?_⟩
  · show lookupFs (cursorSyncPatterns.foldl
      (cursorExportStep home repoPath sysPath) (ensureDirF fs sysPath, none, [])).1
      repoPath = some .dirE
    rw [cursorFold_frame home repoPath sysPath _ _ _
      (fun x _ =>
        ⟨prefix_disjoint_trans hd1 hd2 (List.prefix_refl repoPath) x,
         prefix_disjoint_trans hd1 hd2 (List.prefix_refl repoPath) (x ++ ".backup")⟩),
      hens0]
    exact hrepo
  · show lookupFs (cursorSyncPatterns.foldl
      (cursorExportStep home repoPath sysPath) (ensureDirF fs sysPath, none, [])).1
      sysPath = some .dirE
    rw [cursorFold_frame home repoPath sysPath _ _ _
      (fun x _ =>
        ⟨not_prefix_of_length_lt (by simp),
         not_prefix_of_length_lt (by simp)⟩),
      hens0]
    exact hsys
  · intro pat hpat
    show lookupFs (cursorSyncPatterns.foldl
      (cursorExportStep home repoPath sysPath) (ensureDirF fs sysPath, none, [])).1
      (repoPath ++ [pat]) = _
    rw [cursorFold_frame home repoPath sysPath _ _ _
      (fun x _ =>
        ⟨prefix_disjoint_trans hd1 hd2 (List.prefix_append repoPath [pat]) x,
         prefix_disjoint_trans hd1 hd2 (List.prefix_append repoPath [pat])
           (x ++ ".backup")⟩),
      hens0]
  · intro pat hpat sE hsrcb hs_nl
    obtain ⟨pre, post, hsplit⟩ := List.append_of_mem hpat
    have hnd := hind.1
    rw [hsplit] at hnd
    have hndm : (pre ++ pat :: post).Nodup := hnd
    have hxpost : ∀ x ∈ post, x ∈ cursorSyncPatterns ∧ x ≠ pat := by
      intro x hx
      refine ⟨by
        rw [hsplit]
        exact List.mem_append_right _ (List.mem_cons_of_mem _ hx), ?_⟩
      intro hxp
      rw [List.nodup_append] at hndm
      exact (List.nodup_cons.mp hndm.2.1).1 (hxp ▸ hx)
    have hsrcg : lookupFs (pre.foldl (cursorExportStep home repoPath sysPath)
        (ensureDirF fs sysPath, none, [])).1 (repoPath ++ [pat]) = some sE := by
      rw [cursorFold_frame home repoPath sysPath pre _ _
        (fun x _ =>
          ⟨prefix_disjoint_trans hd1 hd2 (List.prefix_append repoPath [pat]) x,
           prefix_disjoint_trans hd1 hd2 (List.prefix_append repoPath [pat])
             (x ++ ".backup")⟩),
        hens0]
      exact hsrcb
    show lookupFs (cursorSyncPatterns.foldl
      (cursorExportStep home repoPath sysPath) (ensureDirF fs sysPath, none, [])).1
      (sysPath ++ [pat]) = _
    rw [hsplit, List.foldl_append, List.foldl_cons]
    rw [cursorFold_frame home repoPath sysPath post _ _
      (fun x hx => by
        have hxm := hxpost x hx
        have hi := hind.2 x hxm.1 pat hpat hxm.2
        constructor
        · have := @not_prefix_concat_append sysPath _ _ ([] : Path) hxm.2
          simpa using this
        · have := @not_prefix_concat_append sysPath _ _ ([] : Path) hi.2.1
          simpa using this)]
    exact cursorStep_link home repoPath sysPath _ pat sE hsrcg hs_nl

end Syncode

namespace Syncode

/-- Rerunning the cursor pattern loop on an already-linked state: every
iteration either skips (no repo-side source) or unlinks and immediately
recreates the same symlink, so the state is unchanged (as lookups) and no
backup is recorded. -/
theorem cursorFold_rerun (home : String) (repoPath sysPath : Path) (fs1 : Fs) :
    ∀ (ps : List String) (st : Fs × Option String × List String),
      (∀ pat ∈ ps, lookupFs fs1 (repoPath ++ [pat]) = none ∨
        (∃ sE : FEntry, lookupFs fs1 (repoPath ++ [pat]) = some sE ∧
          (∀ t, sE ≠ .symlink t) ∧
          lookupFs fs1 (sysPath ++ [pat]) = some (.symlink (repoPath ++ [pat])))) →
      (∀ k, lookupFs st.1 k = lookupFs fs1 k) →
      (∀ k, lookupFs ((ps.foldl (cursorExportStep home repoPath sysPath) st)).1 k
          = lookupFs fs1 k) ∧
      (ps.foldl (cursorExportStep home repoPath sysPath) st).2.1 = st.2.1 := by
  intro ps
  induction ps with
  | nil => exact fun st _ hinv => ⟨hinv, rfl⟩
  | cons pat rest ih =>
    intro st hfacts hinv
    rw [List.foldl_cons]
    have hrest := fun p hp => hfacts p (List.mem_cons_of_mem _ hp)
    rcases hfacts pat (List.mem_cons_self _ _) with hnone | ⟨sE, hsome, hs_nl, hlink⟩
    · have hstep : cursorExportStep home repoPath sysPath st pat = st := by
        unfold cursorExportStep
        rw [if_pos]
        rw [existsSyncB_of_lookup_none (by rw [hinv]; exact hnone)]
      rw [hstep]
      exact ih st hrest hinv
    · have hex : existsSyncB st.1 (repoPath ++ [pat]) = true :=
        existsSyncB_of_lookup_nonsymlink (by rw [hinv]; exact hsome) hs_nl
      have hsymT : isSymlinkB st.1 (sysPath ++ [pat]) = true :=
        isSymlinkB_of_lookup (by rw [hinv]; exact hlink)
      have hstep : cursorExportStep home repoPath sysPath st pat =
          (symlinkF (unlinkFs st.1 (sysPath ++ [pat]))
            (repoPath ++ [pat]) (sysPath ++ [pat]), st.2.1, st.2.2 ++ [pat]) := by
        unfold cursorExportStep
        rw [if_neg (by rw [hex]; simp), if_neg (by rw [hsymT]; simp),
          if_pos hsymT]
      rw [hstep]
      apply ih _ hrest
      intro k
      by_cases hk : k = sysPath ++ [pat]
      · subst hk
        show lookupFs (symlinkF _ _ _) _ = _
        unfold symlinkF
        rw [lookupFs_cons_self, hlink]
      · show lookupFs (symlinkF _ _ _) _ = _
        unfold symlinkF
        rw [lookupFs_cons_ne _ _ _ _ hk, lookupFs_unlink_ne hk]
        exact hinv k

/-- Cursor export has no already-linked short-circuit: repeated on a fully
linked state it still succeeds (with the normal "Linked" message), but it
creates no backup and leaves the filesystem unchanged (as lookups). -/
theorem cursor_export_rerun (home : String) (fs1 : Fs) (repoPath sysPath : Path)
    (hrepo : lookupFs fs1 repoPath = some .dirE)
    (hsys : lookupFs fs1 sysPath = some .dirE)
    (facts : ∀ pat ∈ cursorSyncPatterns,
      lookupFs fs1 (repoPath ++ [pat]) = none ∨
      (∃ sE : FEntry, lookupFs fs1 (repoPath ++ [pat]) = some sE ∧
        (∀ t, sE ≠ .symlink t) ∧
        lookupFs fs1 (sysPath ++ [pat]) = some (.symlink (repoPath ++ [pat])))) :
    (cursorExport home fs1 repoPath sysPath).1.success = true ∧
    (cursorExport home fs1 repoPath sysPath).1.backedUp = none ∧
    (cursorExport home fs1 repoPath sysPath).1.message
      = "Linked Cursor configs to " ++ contractHome home (renderPath sysPath) ∧
    (∀ k, lookupFs (cursorExport home fs1 repoPath sysPath).2 k
      = lookupFs fs1 k) := by
  have hens0 : ensureDirF fs1 sysPath = fs1 := by
    unfold ensureDirF
    rw [if_pos (existsSyncB_of_lookup_dir hsys)]
  unfold cursorExport
  rw [if_neg (by simp [existsSyncB_of_lookup_dir hrepo,
    isDirectoryB_of_lookup_dir hrepo])]
  have hrun := cursorFold_rerun home repoPath sysPath fs1 cursorSyncPatterns
    (ensureDirF fs1 sysPath, none, []) facts
    (by
      intro k
      show lookupFs (ensureDirF fs1 sysPath) k = _
      rw [hens0])
  exact ⟨rfl, hrun.2, rfl, hrun.1⟩

end Syncode

namespace Syncode

/-- Claim C1 counterexample (claim as written): the Claude adapter is a
tool whose system-side destination exists as real (non-symlink) content,
and whose export succeeds, yet nothing is ever renamed to a `.backup`
sibling, the result reports no backup, and the destination stays a real
directory with its real file untouched — never a symlink to the repo. -/
theorem claude_export_no_backup_no_symlink :
    existsSyncB c1KFs c1KSys = true ∧
    isSymlinkB c1KFs c1KSys = false ∧
    (claudeExport "/home/u" c1KFs c1KRepo c1KSys).1.success = true ∧
    (claudeExport "/home/u" c1KFs c1KRepo c1KSys).1.backedUp = none ∧
    lookupFs (claudeExport "/home/u" c1KFs c1KRepo c1KSys).2
      (backupPathOf c1KSys) = none ∧
    lookupFs (claudeExport "/home/u" c1KFs c1KRepo c1KSys).2
      (backupPathOf (c1KSys ++ ["settings.json"])) = none ∧
    lookupFs (claudeExport "/home/u" c1KFs c1KRepo c1KSys).2 c1KSys
      = some .dirE ∧
    lookupFs (claudeExport "/home/u" c1KFs c1KRepo c1KSys).2
      (c1KSys ++ ["settings.json"]) = some (.file "S") := by decide

/-- Claim C1 (amended): for the symlink-strategy exports — OpenCode at the
config root, Cursor per scoped entry — a destination that exists as real
(non-symlink) content before export is first renamed to the sibling
`.backup` path, whose content afterwards equals the pre-export destination
content, and the destination is left a symlink to the corresponding
repository path, with the export reporting success (copy-strategy tools
such as Claude are exempt: their export copies additively and never backs
up or symlinks). -/
theorem export_backup_before_symlink :
    (∀ (home : String) (fs : Fs) (repoPath q : Path) (a : String) (sE : FEntry),
      lookupFs fs repoPath = some .dirE →
      lookupFs fs (q ++ [a]) = some sE → (∀ t, sE ≠ .symlink t) →
      (∀ e ∈ fs, (q ++ [a ++ ".backup"]) <+: e.1 → e.1 = q ++ [a ++ ".backup"]) →
      (opencodeExport home fs repoPath (q ++ [a])).1.success = true ∧
      (opencodeExport home fs repoPath (q ++ [a])).1.backedUp
        = some (contractHome home (renderPath (q ++ [a ++ ".backup"]))) ∧
      lookupFs (opencodeExport home fs repoPath (q ++ [a])).2 (q ++ [a])
        = some (.symlink repoPath) ∧
      (∀ t, lookupFs (opencodeExport home fs repoPath (q ++ [a])).2
          ((q ++ [a ++ ".backup"]) ++ t) = lookupFs fs ((q ++ [a]) ++ t))) ∧
    (∀ (home : String) (fs : Fs) (repoPath sysPath : Path) (pat : String)
        (sE dE : FEntry),
      pat ∈ cursorSyncPatterns →
      lookupFs fs repoPath = some .dirE →
      lookupFs fs (repoPath ++ [pat]) = some sE → (∀ t, sE ≠ .symlink t) →
      lookupFs fs (sysPath ++ [pat]) = some dE → (∀ t, dE ≠ .symlink t) →
      (∀ e ∈ fs, (sysPath ++ [pat ++ ".backup"]) <+: e.1 →
        e.1 = sysPath ++ [pat ++ ".backup"]) →
      ¬ sysPath <+: repoPath → ¬ repoPath <+: sysPath →
      (cursorExport home fs repoPath sysPath).1.success = true ∧
      lookupFs (cursorExport home fs repoPath sysPath).2 (sysPath ++ [pat])
        = some (.symlink (repoPath ++ [pat])) ∧
      (∀ t, lookupFs (cursorExport home fs repoPath sysPath).2
          ((sysPath ++ [pat ++ ".backup"]) ++ t)
        = lookupFs fs ((sysPath ++ [pat]) ++ t))) := by
  constructor
  · intro home fs repoPath q a sE h1 h2 h3 h4
    obtain ⟨o1, o2, o3, o4, _⟩ :=
      opencode_export_real_content home fs repoPath q a sE h1 h2 h3 h4
    exact ⟨o1, o2, o3, o4⟩
  · intro home fs repoPath sysPath pat sE dE hp h1 h2 h3 h4 h5 h6 h7 h8
    exact cursor_export_real_content home fs repoPath sysPath pat sE dE
      hp h1 h2 h3 h4 h5 h6 h7 h8

/-- Witness for C1: both halves instantiated at concrete states. -/
theorem export_backup_before_symlink_witness :
    (opencodeExport "/home/u" c1Fs c1Repo c1Sys).1.success = true ∧
    lookupFs (opencodeExport "/home/u" c1Fs c1Repo c1Sys).2 c1Sys
      = some (.symlink c1Repo) ∧
    lookupFs (opencodeExport "/home/u" c1Fs c1Repo c1Sys).2
      (["home", "u", ".config"] ++ ["opencode" ++ ".backup"] ++ ["opencode.json"])
      = lookupFs c1Fs (c1Sys ++ ["opencode.json"]) ∧
    (cursorExport "/home/u" c1CFs c1CRepo c1CSys).1.success = true ∧
    lookupFs (cursorExport "/home/u" c1CFs c1CRepo c1CSys).2
      (c1CSys ++ ["settings.json"])
      = some (.symlink (c1CRepo ++ ["settings.json"])) := by
  obtain ⟨o1, _, o3, o4⟩ := export_backup_before_symlink.1 "/home/u" c1Fs c1Repo
    ["home", "u", ".config"] "opencode" .dirE
    (by decide) (by decide) (fun t h => FEntry.noConfusion h) (by decide)
  obtain ⟨u1, u2, _⟩ := export_backup_before_symlink.2 "/home/u" c1CFs c1CRepo
    c1CSys "settings.json" (.file "repoS") (.file "sysS")
    (by decide) (by decide) (by decide) (fun t h => FEntry.noConfusion h)
    (by decide) (fun t h => FEntry.noConfusion h) (by decide) (by decide)
    (by decide)
  exact ⟨o1, o3, o4 ["opencode.json"], u1, u2⟩

end Syncode

namespace Syncode

/-- Claim C2 counterexample (claim as written): Cursor is a symlink-export
tool, yet immediately repeating a just-completed export does not return a
message indicating "already linked" — it reports the ordinary "Linked
Cursor configs to ..." message (there is no short-circuit in the loop). -/
theorem cursor_reexport_not_already_linked :
    cursorIsLinked (cursorExport "/home/u" c2CFs c2CRepo c2CSys).2
      c2CSys c2CRepo = true ∧
    (cursorExport "/home/u" (cursorExport "/home/u" c2CFs c2CRepo c2CSys).2
      c2CRepo c2CSys).1.success = true ∧
    (cursorExport "/home/u" (cursorExport "/home/u" c2CFs c2CRepo c2CSys).2
      c2CRepo c2CSys).1.message = "Linked Cursor configs to ~/Cursor/User" ∧
    containsToken
      (cursorExport "/home/u" (cursorExport "/home/u" c2CFs c2CRepo c2CSys).2
        c2CRepo c2CSys).1.message "lready linked" = false := by decide

/-- Claim C2 (amended): OpenCode's export is idempotent with the
"already linked" short-circuit: repeating it returns success with the
"Already linked to repo - no export needed" message, no backup, and the
identical filesystem.  Cursor's export has no such short-circuit: the
repeated run still succeeds with the ordinary "Linked Cursor configs to
..." message, but it creates no new backup and leaves every path's binding
unchanged (re-linking each entry to the symlink it already was). -/
theorem export_idempotent_second_run :
    (∀ (home : String) (fs : Fs) (repoPath q : Path) (a : String),
      lookupFs fs repoPath = some .dirE →
      ¬ q <+: repoPath → ¬ repoPath <+: q →
      opencodeExport home (opencodeExport home fs repoPath (q ++ [a])).2
          repoPath (q ++ [a])
        = ({ success := true,
             message := "Already linked to repo - no export needed",
             linkedTo := some (contractHome home (renderPath repoPath)) },
           (opencodeExport home fs repoPath (q ++ [a])).2)) ∧
    (∀ (home : String) (fs : Fs) (repoPath sysPath : Path),
      lookupFs fs repoPath = some .dirE →
      lookupFs fs sysPath = some .dirE →
      ¬ sysPath <+: repoPath → ¬ repoPath <+: sysPath →
      (∀ pat ∈ cursorSyncPatterns,
        lookupFs fs (repoPath ++ [pat]) = none ∨
        (∃ sE : FEntry, lookupFs fs (repoPath ++ [pat]) = some sE ∧
          (∀ t, sE ≠ .symlink t))) →
      (cursorExport home (cursorExport home fs repoPath sysPath).2
          repoPath sysPath).1.success = true ∧
      (cursorExport home (cursorExport home fs repoPath sysPath).2
          repoPath sysPath).1.backedUp = none ∧
      (cursorExport home (cursorExport home fs repoPath sysPath).2
          repoPath sysPath).1.message
        = "Linked Cursor configs to " ++ contractHome home (renderPath sysPath) ∧
      (∀ k, lookupFs (cursorExport home (cursorExport home fs repoPath sysPath).2
          repoPath sysPath).2 k
        = lookupFs (cursorExport home fs repoPath sysPath).2 k)) := by
  constructor
  · intro home fs repoPath q a h1 h2 h3
    exact (opencode_export_idempotent home fs repoPath q a h1 h2 h3).2
  · intro home fs repoPath sysPath h1 h2 h3 h4 hsrcs
    obtain ⟨s1, s2, s3, s4, s5⟩ := cursor_export_state home fs repoPath sysPath h1 h2 h3 h4
    exact cursor_export_rerun home _ repoPath sysPath s2 s3 (by
      intro pat hp
      rcases hsrcs pat hp with hnone | ⟨sE, hb, hnl⟩
      · left
        rw [s4 pat hp]
        exact hnone
      · right
        exact ⟨sE, by rw [s4 pat hp]; exact hb, hnl, s5 pat hp sE hb hnl⟩)

/-- Witness for C2: both halves instantiated at concrete states. -/
theorem export_idempotent_second_run_witness :
    opencodeExport "/home/u" (opencodeExport "/home/u" c2Fs c2Repo c2Sys).2
        c2Repo c2Sys
      = ({ success := true,
           message := "Already linked to repo - no export needed",
           linkedTo := some (contractHome "/home/u" (renderPath c2Repo)) },
         (opencodeExport "/home/u" c2Fs c2Repo c2Sys).2) ∧
    (cursorExport "/home/u" (cursorExport "/home/u" c2CFs c2CRepo c2CSys).2
      c2CRepo c2CSys).1.success = true ∧
    (cursorExport "/home/u" (cursorExport "/home/u" c2CFs c2CRepo c2CSys).2
      c2CRepo c2CSys).1.backedUp = none ∧
    (∀ k, lookupFs (cursorExport "/home/u"
        (cursorExport "/home/u" c2CFs c2CRepo c2CSys).2 c2CRepo c2CSys).2 k
      = lookupFs (cursorExport "/home/u" c2CFs c2CRepo c2CSys).2 k) := by
  have ho := export_idempotent_second_run.1 "/home/u" c2Fs c2Repo
    ["home", "u", ".config"] "opencode" (by decide) (by decide) (by decide)
  have hc := export_idempotent_second_run.2 "/home/u" c2CFs c2CRepo c2CSys
    (by decide) (by decide) (by decide) (by decide)
    (by
      intro pat hp
      simp only [cursorSyncPatterns, List.mem_cons, List.not_mem_nil, or_false] at hp
      rcases hp with rfl | rfl | rfl | rfl
      · exact Or.inr ⟨.file "repoS", by decide, fun t h => FEntry.noConfusion h⟩
      · exact Or.inl (by decide)
      · exact Or.inl (by decide)
      · exact Or.inl (by decide))
  exact ⟨ho, hc.1, hc.2.1, hc.2.2.2⟩

end Syncode

namespace Syncode

/-! ## Shared machinery for the shared-skills claim (C9) -/

/-- Helper: the shared-skills linker always leaves the agent's skills path
bound to a symlink into the shared skills directory (either it already was
one, or `createSymlinkWithBackup` rebinds it). -/
theorem linkSharedSkillsOnSystemF_lookup (fs : Fs) (p shared : Path) :
    lookupFs (linkSharedSkillsOnSystemF fs p shared) p = some (.symlink shared) := by
  show lookupFs
    (if isSymlinkB (ensureDirF fs shared) p = true ∧
        getSymlinkTargetF (ensureDirF fs shared) p = some shared
      then ensureDirF fs shared
      else (createSymlinkWithBackupF (ensureDirF fs shared) shared p).2) p
    = some (.symlink shared)
  split
  · next h =>
    obtain ⟨h1, h2⟩ := h
    unfold getSymlinkTargetF at h2
    revert h2
    cases hl : lookupFs (ensureDirF fs shared) p with
    | none => intro h2; cases h2
    | some e =>
      cases e with
      | file c => intro h2; cases h2
      | dirE => intro h2; cases h2
      | special => intro h2; cases h2
      | symlink t =>
        intro h2
        injection h2 with h3
        rw [h3]
  · exact createSymlinkWithBackupF_lookup _ shared p

set_option maxHeartbeats 1600000 in
/-- Helper: whenever `VSCodeAdapter.import` actually imports anything, the
linker has run, so the system-side skills path ends as a symlink into the
shared skills directory. -/
theorem vscodeImport_skills_linked (fs : Fs) (systemPath repoPath sharedSkillsPath : Path)
    (h : (vscodeImport fs systemPath repoPath sharedSkillsPath).1.filesImported ≠ []) :
    lookupFs (vscodeImport fs systemPath repoPath sharedSkillsPath).2
      (systemPath ++ ["skills"]) = some (.symlink sharedSkillsPath) := by
  have heq : vscodeImport fs systemPath repoPath sharedSkillsPath
      = if ¬ (existsSyncB fs systemPath = true ∧ isDirectoryB fs systemPath = true) then
          ({ success := false, message := "VSCode config not found on system" }, fs)
        else if (vscodeSyncPatterns.foldl (vscodeImportStep systemPath repoPath)
            (ensureDirF fs repoPath, [])).2 = [] then
          ({ success := true, message := "No VSCode configs found to import" },
           (vscodeSyncPatterns.foldl (vscodeImportStep systemPath repoPath)
             (ensureDirF fs repoPath, [])).1)
        else
          ({ success := true, message := "Imported VSCode configs to repo",
             filesImported := (vscodeSyncPatterns.foldl (vscodeImportStep systemPath repoPath)
               (ensureDirF fs repoPath, [])).2 },
           linkSharedSkillsOnSystemF
             (vscodeSyncPatterns.foldl (vscodeImportStep systemPath repoPath)
               (ensureDirF fs repoPath, [])).1
             (systemPath ++ ["skills"]) sharedSkillsPath) := rfl
  rw [heq] at h ⊢
  by_cases hg : ¬ (existsSyncB fs systemPath = true ∧ isDirectoryB fs systemPath = true)
  · rw [if_pos hg] at h
    exact absurd rfl h
  · rw [if_neg hg] at h ⊢
    by_cases ho : (vscodeSyncPatterns.foldl (vscodeImportStep systemPath repoPath)
        (ensureDirF fs repoPath, [])).2 = []
    · rw [if_pos ho] at h
      exact absurd rfl h
    · rw [if_neg ho]
      exact linkSharedSkillsOnSystemF_lookup _ _ _

end Syncode

namespace Syncode

/-- Claim C9 counterexample (claim as written): Claude participates in
shared skills, its import succeeds and imports the skills directory, yet
no linker ran: the repo gets a private real copy of the skills tree and
the system-side skills path remains a real directory, not a symlink. -/
theorem claude_import_skills_private_copy :
    usesSharedSkills "claude" = true ∧
    (claudeImport c9KFs c9KSys c9KRepo).1.success = true ∧
    (claudeImport c9KFs c9KSys c9KRepo).1.filesImported = ["skills/"] ∧
    lookupFs (claudeImport c9KFs c9KSys c9KRepo).2 (c9KRepo ++ ["skills"])
      = some .dirE ∧
    lookupFs (claudeImport c9KFs c9KSys c9KRepo).2 (c9KRepo ++ ["skills", "a.md"])
      = some (.file "A") ∧
    isSymlinkB (claudeImport c9KFs c9KSys c9KRepo).2 (c9KSys ++ ["skills"]) = false ∧
    lookupFs (claudeImport c9KFs c9KSys c9KRepo).2 (c9KSys ++ ["skills"])
      = some .dirE := by decide

/-- Claim C9 (amended): VSCode — a shared-skills participant — invokes the
Shared-Skills Linker as an extra step of its import: whenever the import
actually imported anything, the system-side skills path ends bound to a
symlink into the shared skills directory.  Claude, although also a
participant, never invokes the linker: its import copies the skills tree
privately into the repo and leaves the system-side skills path a real
directory. -/
theorem shared_skills_linker_invocation :
    (∀ (fs : Fs) (systemPath repoPath sharedSkillsPath : Path),
      usesSharedSkills "vscode" = true ∧
      ((vscodeImport fs systemPath repoPath sharedSkillsPath).1.filesImported ≠ [] →
        lookupFs (vscodeImport fs systemPath repoPath sharedSkillsPath).2
          (systemPath ++ ["skills"]) = some (.symlink sharedSkillsPath))) ∧
    (usesSharedSkills "claude" = true ∧
      isSymlinkB (claudeImport c9KFs c9KSys c9KRepo).2 (c9KSys ++ ["skills"]) = false ∧
      lookupFs (claudeImport c9KFs c9KSys c9KRepo).2 (c9KRepo ++ ["skills", "a.md"])
        = some (.file "A")) := by
  refine ⟨?_, by decide, by decide, by decide⟩
  intro fs systemPath repoPath sharedSkillsPath
  exact ⟨by decide, vscodeImport_skills_linked fs systemPath repoPath sharedSkillsPath⟩

/-- Witness for C9: a VSCode import that imports a settings file and ends
with the skills path linked into the shared directory. -/
theorem shared_skills_linker_invocation_witness :
    (vscodeImport c9VFs c9VSys c9VRepo c9Shared).1.filesImported ≠ [] ∧
    lookupFs (vscodeImport c9VFs c9VSys c9VRepo c9Shared).2
      (c9VSys ++ ["skills"]) = some (.symlink c9Shared) :=
  ⟨by decide,
   (shared_skills_linker_invocation.1 c9VFs c9VSys c9VRepo c9Shared).2 (by decide)⟩

end Syncode

namespace Syncode

/-! ## Shared machinery for the import frame claim (C3) -/

theorem lookupFs_mem {fs : Fs} {p : Path} {e : FEntry}
    (h : lookupFs fs p = some e) : (p, e) ∈ fs := by
  induction fs with
  | nil => cases h
  | cons x rest ih =>
    by_cases hx : x.1 = p
    · simp only [lookupFs, if_pos hx] at h
      injection h with h2
      exact List.mem_cons.mpr (Or.inl (by rw [← hx, ← h2]))
    · simp only [lookupFs, if_neg hx] at h
      exact List.mem_cons_of_mem _ (ih h)

theorem symlinkFree_iff {fs : Fs} : symlinkFree fs = true ↔
    ∀ e ∈ fs, ∀ t : Path, e.2 ≠ FEntry.symlink t := by
  unfold symlinkFree
  rw [List.all_eq_true]
  constructor
  · intro h e he t ht
    have h2 := h e he
    rw [ht] at h2
    cases h2
  · intro h e he
    cases he2 : e.2 with
    | symlink t => exact absurd he2 (h e he t)
    | file c => rfl
    | dirE => rfl
    | special => rfl

theorem symlinkFree_lookup {fs : Fs} {p : Path} {e : FEntry} {t : Path}
    (hfree : symlinkFree fs = true) (h : lookupFs fs p = some e) :
    e ≠ FEntry.symlink t := by
  intro he
  exact symlinkFree_iff.mp hfree _ (lookupFs_mem h) t (by rw [he])

theorem mem_setEntry {fs : Fs} {p : Path} {v : FEntry} {e : Path × FEntry}
    (h : e ∈ setEntry fs p v) : e ∈ fs ∨ e = (p, v) := by
  unfold setEntry at h
  rcases List.mem_cons.mp h with h1 | h1
  · exact Or.inr h1
  · exact Or.inl (List.mem_filter.mp h1).1

theorem mem_addDirs_entry {fs : Fs} {p : Path} {e : Path × FEntry}
    (h : e ∈ addDirs fs p) : e ∈ fs ∨ e.2 = FEntry.dirE := by
  unfold addDirs at h
  suffices H : ∀ (qs : List Path) (acc : Fs), e ∈ qs.foldl addDirStep acc →
      e ∈ acc ∨ e.2 = FEntry.dirE by
    exact H (pathPrefixes p) fs h
  intro qs
  induction qs with
  | nil => intro acc h; exact Or.inl h
  | cons q rest ih =>
    intro acc h
    rw [List.foldl_cons] at h
    rcases ih _ h with h1 | h1
    · unfold addDirStep at h1
      split at h1
      · exact Or.inl h1
      · rcases List.mem_cons.mp h1 with h2 | h2
        · exact Or.inr (by rw [h2])
        · exact Or.inl h2
    · exact Or.inr h1

theorem symlinkFree_ensureDir {fs : Fs} {p : Path}
    (h : symlinkFree fs = true) : symlinkFree (ensureDirF fs p) = true := by
  rw [symlinkFree_iff] at h ⊢
  intro e he t
  unfold ensureDirF at he
  split at he
  · exact h e he t
  · rcases mem_addDirs_entry he with h1 | h1
    · exact h e h1 t
    · rw [h1]
      exact fun ht => FEntry.noConfusion ht

theorem symlinkFree_setEntry {fs : Fs} {p : Path} {v : FEntry}
    (h : symlinkFree fs = true) (hv : ∀ t, v ≠ FEntry.symlink t) :
    symlinkFree (setEntry fs p v) = true := by
  rw [symlinkFree_iff] at h ⊢
  intro e he t
  rcases mem_setEntry he with h1 | h1
  · exact h e h1 t
  · rw [h1]
    exact hv t

theorem symlinkFree_copyFileF {fs : Fs} {src dst : Path}
    (h : symlinkFree fs = true) : symlinkFree (copyFileF fs src dst) = true := by
  unfold copyFileF
  cases hr : resolveEntry (fs.length + 1) fs src with
  | none => exact h
  | some e =>
    cases e with
    | file c => exact symlinkFree_setEntry h (fun t ht => FEntry.noConfusion ht)
    | dirE => exact h
    | symlink t => exact h
    | special => exact h

theorem followLinks_eq_self {n : Nat} {fs : Fs} {p : Path}
    (hfree : symlinkFree fs = true) : followLinks n fs p = p := by
  cases n with
  | zero => rfl
  | succ m =>
    unfold followLinks
    cases hl : lookupFs fs p with
    | none => rfl
    | some e =>
      cases e with
      | symlink t => exact absurd rfl (symlinkFree_lookup hfree hl)
      | file c => rfl
      | dirE => rfl
      | special => rfl

theorem lookupFs_copyFileF_ne {fs : Fs} {src dst k : Path}
    (hfree : symlinkFree fs = true) (h : k ≠ dst) :
    lookupFs (copyFileF fs src dst) k = lookupFs fs k := by
  unfold copyFileF
  cases hr : resolveEntry (fs.length + 1) fs src with
  | none => rfl
  | some e =>
    cases e with
    | file c =>
      rw [followLinks_eq_self hfree]
      exact lookupFs_setEntry_ne fs dst k _ h
    | dirE => rfl
    | symlink t => rfl
    | special => rfl

theorem existsSyncB_eq_isSome {fs : Fs} {p : Path}
    (hfree : symlinkFree fs = true) :
    existsSyncB fs p = (lookupFs fs p).isSome := by
  unfold existsSyncB resolveEntry
  cases hl : lookupFs fs p with
  | none => rfl
  | some e =>
    cases e with
    | symlink t => exact absurd rfl (symlinkFree_lookup hfree hl)
    | file c => rfl
    | dirE => rfl
    | special => rfl

end Syncode

namespace Syncode

theorem prefix_concat_cases {k q : Path} {x : String}
    (h : k <+: q ++ [x]) : k <+: q ∨ k = q ++ [x] := by
  by_cases hl : k.length ≤ q.length
  · exact Or.inl (List.prefix_of_prefix_length_le h (List.prefix_append q [x]) hl)
  · right
    apply List.IsPrefix.eq_of_length h
    have h1 := h.length_le
    simp only [List.length_append, List.length_cons, List.length_nil] at h1 ⊢
    omega

/-- One `copyDir` loop iteration on a symlink-free state: the state stays
symlink-free and only the `dest` subtree (and its interior) is touched. -/
theorem copyDirL_free_frame (m : Nat)
    (ih : ∀ (fs : Fs) (src dest : Path), symlinkFree fs = true →
      symlinkFree (copyDirFuel m fs src dest) = true ∧
      ∀ k, ¬ dest <+: k → ¬ k <+: dest →
        lookupFs (copyDirFuel m fs src dest) k = lookupFs fs k)
    (src dest : Path) (acc : Fs) (name : String)
    (hacc : symlinkFree acc = true) :
    symlinkFree (copyDirL m src dest acc name) = true ∧
    ∀ k, ¬ dest <+: k → ¬ k <+: dest →
      lookupFs (copyDirL m src dest acc name) k = lookupFs acc k := by
  unfold copyDirL
  by_cases hskip : name ∈ skipDirectories
  · rw [if_pos hskip]
    exact ⟨hacc, fun k _ _ => rfl⟩
  · rw [if_neg hskip]
    cases hl : lookupFs acc (src ++ [name]) with
    | none => exact ⟨hacc, fun k _ _ => rfl⟩
    | some e =>
      cases e with
      | symlink t => exact absurd rfl (symlinkFree_lookup hacc hl)
      | special => exact ⟨hacc, fun k _ _ => rfl⟩
      | dirE =>
        obtain ⟨hf, hfr⟩ := ih acc (src ++ [name]) (dest ++ [name]) hacc
        refine ⟨hf, fun k hk1 hk2 => ?_⟩
        refine hfr k (fun h => hk1 ((List.prefix_append dest [name]).trans h)) ?_
        intro h
        rcases prefix_concat_cases h with h1 | h1
        · exact hk2 h1
        · exact hk1 (h1.symm ▸ List.prefix_append dest [name])
      | file c =>
        refine ⟨symlinkFree_copyFileF hacc, fun k hk1 hk2 => ?_⟩
        refine lookupFs_copyFileF_ne hacc ?_
        intro h
        exact hk1 (h ▸ List.prefix_append dest [name])

/-- The `copyDir` child loop on a symlink-free state: symlink-freedom is
invariant and lookups outside the `dest` subtree are unchanged. -/
theorem copyDirFold_free_frame (m : Nat)
    (ih : ∀ (fs : Fs) (src dest : Path), symlinkFree fs = true →
      symlinkFree (copyDirFuel m fs src dest) = true ∧
      ∀ k, ¬ dest <+: k → ¬ k <+: dest →
        lookupFs (copyDirFuel m fs src dest) k = lookupFs fs k)
    (src dest : Path) :
    ∀ (names : List String) (acc : Fs), symlinkFree acc = true →
    symlinkFree (names.foldl (copyDirL m src dest) acc) = true ∧
    ∀ k, ¬ dest <+: k → ¬ k <+: dest →
      lookupFs (names.foldl (copyDirL m src dest) acc) k = lookupFs acc k := by
  intro names
  induction names with
  | nil => exact fun acc h => ⟨h, fun k _ _ => rfl⟩
  | cons name rest ihn =>
    intro acc hacc
    rw [List.foldl_cons]
    obtain ⟨h1, h2⟩ := copyDirL_free_frame m ih src dest acc name hacc
    obtain ⟨h3, h4⟩ := ihn (copyDirL m src dest acc name) h1
    refine ⟨h3, fun k hk1 hk2 => ?_⟩
    rw [h4 k hk1 hk2, h2 k hk1 hk2]

/-- `copyDir` on a symlink-free state: the result is symlink-free and every
path outside the `dest` subtree (and not enclosing `dest`) is unchanged. -/
theorem copyDirFuel_free_frame : ∀ (fuel : Nat) (fs : Fs) (src dest : Path),
    symlinkFree fs = true →
    symlinkFree (copyDirFuel fuel fs src dest) = true ∧
    ∀ k, ¬ dest <+: k → ¬ k <+: dest →
      lookupFs (copyDirFuel fuel fs src dest) k = lookupFs fs k := by
  intro fuel
  induction fuel with
  | zero => exact fun fs src dest h => ⟨h, fun k _ _ => rfl⟩
  | succ m ihm =>
    intro fs src dest hfree
    have hrw : copyDirFuel (m + 1) fs src dest
        = (childNames (ensureDirF fs dest) src).foldl (copyDirL m src dest)
          (ensureDirF fs dest) := rfl
    rw [hrw]
    obtain ⟨hf, hfr⟩ := copyDirFold_free_frame m ihm src dest
      (childNames (ensureDirF fs dest) src) (ensureDirF fs dest)
      (symlinkFree_ensureDir hfree)
    refine ⟨hf, fun k hk1 hk2 => ?_⟩
    rw [hfr k hk1 hk2, lookupFs_ensureDir_out hk2]

end Syncode

namespace Syncode

/-- A Claude import iteration whose repo-side destination already exists is
a complete no-op (one of the three skip branches fires). -/
theorem claudeImportStep_skip {systemPath repoPath : Path}
    {acc : Fs × List String} {pat : String}
    (h : existsSyncB acc.1 (repoPath ++ [pat]) = true) :
    claudeImportStep systemPath repoPath acc pat = acc := by
  show (if existsSyncB acc.1 (systemPath ++ [pat]) = false then acc
    else if isSymlinkB acc.1 (systemPath ++ [pat]) = true then acc
    else if existsSyncB acc.1 (repoPath ++ [pat]) = true then acc
    else if isDirectoryB acc.1 (systemPath ++ [pat]) = true then
      (copyDirFuel (acc.1.length + 1) acc.1 (systemPath ++ [pat]) (repoPath ++ [pat]),
       acc.2 ++ [pat ++ "/"])
    else (copyFileF (ensureDirF acc.1 (dirname (repoPath ++ [pat])))
      (systemPath ++ [pat]) (repoPath ++ [pat]), acc.2 ++ [pat])) = acc
  by_cases h1 : existsSyncB acc.1 (systemPath ++ [pat]) = false
  · rw [if_pos h1]
  · rw [if_neg h1]
    by_cases h2 : isSymlinkB acc.1 (systemPath ++ [pat]) = true
    · rw [if_pos h2]
    · rw [if_neg h2, if_pos h]

/-- A Claude import iteration on a symlink-free state keeps it symlink-free
and touches nothing outside its own destination subtree and the repo-root
ancestors. -/
theorem claudeImportStep_free_frame {systemPath repoPath : Path}
    {acc : Fs × List String} {pat : String}
    (hfree : symlinkFree acc.1 = true) :
    symlinkFree (claudeImportStep systemPath repoPath acc pat).1 = true ∧
    ∀ k, ¬ (repoPath ++ [pat]) <+: k → ¬ k <+: (repoPath ++ [pat]) →
      lookupFs (claudeImportStep systemPath repoPath acc pat).1 k
        = lookupFs acc.1 k := by
  have hshow : claudeImportStep systemPath repoPath acc pat
      = (if existsSyncB acc.1 (systemPath ++ [pat]) = false then acc
        else if isSymlinkB acc.1 (systemPath ++ [pat]) = true then acc
        else if existsSyncB acc.1 (repoPath ++ [pat]) = true then acc
        else if isDirectoryB acc.1 (systemPath ++ [pat]) = true then
          (copyDirFuel (acc.1.length + 1) acc.1 (systemPath ++ [pat]) (repoPath ++ [pat]),
           acc.2 ++ [pat ++ "/"])
        else (copyFileF (ensureDirF acc.1 (dirname (repoPath ++ [pat])))
          (systemPath ++ [pat]) (repoPath ++ [pat]), acc.2 ++ [pat])) := rfl
  rw [hshow]
  by_cases h1 : existsSyncB acc.1 (systemPath ++ [pat]) = false
  · rw [if_pos h1]
    exact ⟨hfree, fun k _ _ => rfl⟩
  · rw [if_neg h1]
    by_cases h2 : isSymlinkB acc.1 (systemPath ++ [pat]) = true
    · rw [if_pos h2]
      exact ⟨hfree, fun k _ _ => rfl⟩
    · rw [if_neg h2]
      by_cases h3 : existsSyncB acc.1 (repoPath ++ [pat]) = true
      · rw [if_pos h3]
        exact ⟨hfree, fun k _ _ => rfl⟩
      · rw [if_neg h3]
        by_cases h4 : isDirectoryB acc.1 (systemPath ++ [pat]) = true
        · rw [if_pos h4]
          obtain ⟨hf, hfr⟩ := copyDirFuel_free_frame (acc.1.length + 1) acc.1
            (systemPath ++ [pat]) (repoPath ++ [pat]) hfree
          exact ⟨hf, fun k hk1 hk2 => hfr k hk1 hk2⟩
        · rw [if_neg h4]
          have hdir : dirname (repoPath ++ [pat]) = repoPath := by
            unfold dirname
            exact List.dropLast_concat
          refine ⟨?_, fun k hk1 hk2 => ?_⟩
          · exact symlinkFree_copyFileF (symlinkFree_ensureDir hfree)
          · rw [lookupFs_copyFileF_ne (symlinkFree_ensureDir hfree)
              (fun h => hk1 (by rw [h])), hdir,
              lookupFs_ensureDir_out
                (fun h => hk2 (h.trans (List.prefix_append repoPath [pat])))]

end Syncode

namespace Syncode

/-- A run of Claude import iterations for patterns other than `pat` keeps
the state symlink-free and leaves the `repoPath ++ [pat]` subtree
untouched. -/
theorem claudeFold_protect {systemPath repoPath : Path} {pat : String} :
    ∀ (ps : List String) (acc : Fs × List String),
    symlinkFree acc.1 = true →
    (∀ q ∈ ps, q ≠ pat) →
    symlinkFree ((ps.foldl (claudeImportStep systemPath repoPath) acc)).1 = true ∧
    ∀ k, (repoPath ++ [pat]) <+: k →
      lookupFs ((ps.foldl (claudeImportStep systemPath repoPath) acc)).1 k
        = lookupFs acc.1 k := by
  intro ps
  induction ps with
  | nil => exact fun acc h _ => ⟨h, fun k _ => rfl⟩
  | cons q rest ih =>
    intro acc hacc hne
    rw [List.foldl_cons]
    obtain ⟨h1, h2⟩ := @claudeImportStep_free_frame systemPath repoPath acc q hacc
    obtain ⟨h3, h4⟩ := ih _ h1 (fun x hx => hne x (List.mem_cons_of_mem _ hx))
    have hqpat : q ≠ pat := hne q (List.mem_cons_self _ _)
    refine ⟨h3, fun k hk => ?_⟩
    rw [h4 k hk]
    refine h2 k ?_ ?_
    · exact prefix_incomparable (not_prefix_concat_ne (fun h => hqpat h.symm))
        (not_prefix_concat_ne hqpat) hk
    · intro h
      exact hqpat (concat_prefix_concat_eq (hk.trans h)).symm

end Syncode

namespace Syncode

/-- Claim C3 (amended): for tools that check the destination — Claude among
the cited sources — import is additive-only: in a symlink-free state, for
every scoped entry whose destination already exists in the repository, the
whole repository subtree of that entry is left unchanged, even when the
system-side counterpart differs (CursorAdapter.import, by contrast, copies
unconditionally and overwrites existing repo content). -/
theorem claude_import_additive (fs : Fs) (systemPath repoPath : Path)
    (pat : String) (hfree : symlinkFree fs = true)
    (hpat : pat ∈ claudeSyncPatterns)
    (hex : existsSyncB fs (repoPath ++ [pat]) = true) :
    ∀ k, (repoPath ++ [pat]) <+: k →
      lookupFs (claudeImport fs systemPath repoPath).2 k = lookupFs fs k := by
  intro k hk
  have hklen : repoPath.length < k.length := by
    have := hk.length_le
    simp only [List.length_append, List.length_cons, List.length_nil] at this
    omega
  have hkrp : ¬ k <+: repoPath := not_prefix_of_length_lt hklen
  have hst : (claudeImport fs systemPath repoPath).2
      = if ¬ (existsSyncB fs systemPath = true ∧ isDirectoryB fs systemPath = true)
        then fs
        else (claudeSyncPatterns.foldl (claudeImportStep systemPath repoPath)
          (ensureDirF fs repoPath, [])).1 := by
    show (if ¬ (existsSyncB fs systemPath = true ∧ isDirectoryB fs systemPath = true) then
        ({ success := false, message := "Claude config not found on system" }, fs)
      else if (claudeSyncPatterns.foldl (claudeImportStep systemPath repoPath)
          (ensureDirF fs repoPath, [])).2 = [] then
        ({ success := true,
           message := "No Claude configs found to import (settings.json, CLAUDE.md, commands/, skills/)" },
         (claudeSyncPatterns.foldl (claudeImportStep systemPath repoPath)
           (ensureDirF fs repoPath, [])).1)
      else
        ({ success := true, message := "Imported Claude configs to repo",
           filesImported := (claudeSyncPatterns.foldl (claudeImportStep systemPath repoPath)
             (ensureDirF fs repoPath, [])).2 },
         (claudeSyncPatterns.foldl (claudeImportStep systemPath repoPath)
           (ensureDirF fs repoPath, [])).1) : ImportResult × Fs).2 = _
    by_cases hg : ¬ (existsSyncB fs systemPath = true ∧ isDirectoryB fs systemPath = true)
    · rw [if_pos hg, if_pos hg]
    · rw [if_neg hg, if_neg hg]
      by_cases ho : (claudeSyncPatterns.foldl (claudeImportStep systemPath repoPath)
          (ensureDirF fs repoPath, [])).2 = []
      · rw [if_pos ho]
      · rw [if_neg ho]
  rw [hst]
  by_cases hg : ¬ (existsSyncB fs systemPath = true ∧ isDirectoryB fs systemPath = true)
  · rw [if_pos hg]
  · rw [if_neg hg]
    obtain ⟨pre, post, hsplit⟩ := List.append_of_mem hpat
    have hnd : claudeSyncPatterns.Nodup := by decide
    rw [hsplit] at hnd
    have hndm : (pre ++ pat :: post).Nodup := hnd
    have hxpre : ∀ x ∈ pre, x ≠ pat := by
      intro x hx hxp
      rw [List.nodup_append] at hndm
      exact hndm.2.2 hx (hxp ▸ List.mem_cons_self _ _)
    have hxpost : ∀ x ∈ post, x ≠ pat := by
      intro x hx hxp
      rw [List.nodup_append] at hndm
      exact (List.nodup_cons.mp hndm.2.1).1 (hxp ▸ hx)
    rw [hsplit, List.foldl_append, List.foldl_cons]
    have hfree0 : symlinkFree (ensureDirF fs repoPath, ([] : List String)).1 = true :=
      symlinkFree_ensureDir hfree
    obtain ⟨hfree1, hframe1⟩ := @claudeFold_protect systemPath repoPath pat pre
      (ensureDirF fs repoPath, []) hfree0 hxpre
    have hself : lookupFs ((pre.foldl (claudeImportStep systemPath repoPath)
        (ensureDirF fs repoPath, []))).1 (repoPath ++ [pat])
        = lookupFs fs (repoPath ++ [pat]) := by
      rw [hframe1 _ (List.prefix_refl _)]
      exact lookupFs_ensureDir_out
        (not_prefix_of_length_lt (by
          simp only [List.length_append, List.length_cons, List.length_nil]
          omega))
    have hex1 : existsSyncB ((pre.foldl (claudeImportStep systemPath repoPath)
        (ensureDirF fs repoPath, []))).1 (repoPath ++ [pat]) = true := by
      rw [existsSyncB_eq_isSome hfree1, hself, ← existsSyncB_eq_isSome hfree]
      exact hex
    rw [claudeImportStep_skip hex1]
    obtain ⟨_, hframe2⟩ := @claudeFold_protect systemPath repoPath pat post
      (pre.foldl (claudeImportStep systemPath repoPath)
        (ensureDirF fs repoPath, [])) hfree1 hxpost
    rw [hframe2 k hk, hframe1 k hk]
    exact lookupFs_ensureDir_out hkrp

end Syncode

namespace Syncode

/-- Claim C3 counterexample (claim as written): Cursor's import copies
unconditionally — with `settings.json` already present in the repo with
different content than the system side, a successful import overwrites the
repo entry with the system content. -/
theorem cursor_import_overwrites_repo :
    lookupFs c3CFs (c3CRepo ++ ["settings.json"]) = some (.file "repoS") ∧
    lookupFs c3CFs (c3CSys ++ ["settings.json"]) = some (.file "sysS") ∧
    (cursorImport c3CFs c3CSys c3CRepo).1.success = true ∧
    (cursorImport c3CFs c3CSys c3CRepo).1.filesImported = ["settings.json"] ∧
    lookupFs (cursorImport c3CFs c3CSys c3CRepo).2 (c3CRepo ++ ["settings.json"])
      = some (.file "sysS") := by decide

/-- Witness for C3: a concrete Claude import that leaves the existing repo
`settings.json` untouched although the system-side copy differs. -/
theorem claude_import_additive_witness :
    lookupFs c3KFs (c3KRepo ++ ["settings.json"]) = some (.file "R") ∧
    lookupFs c3KFs (c3KSys ++ ["settings.json"]) = some (.file "S") ∧
    lookupFs (claudeImport c3KFs c3KSys c3KRepo).2 (c3KRepo ++ ["settings.json"])
      = some (.file "R") := by
  refine ⟨by decide, by decide, ?_⟩
  rw [claude_import_additive c3KFs c3KSys c3KRepo "settings.json"
    (by decide) (by decide) (by decide) (c3KRepo ++ ["settings.json"])
    (List.prefix_refl _)]
  decide

end Syncode
